import Mathlib

/-!
Shallow embedding of the Predictive Warming / Slot Lifecycle Manager
(`warming.py` and the warm-slot endpoints of `app_server.py`).

Time is modelled as `Nat` seconds (`datetime.utcnow()` becomes an explicit
`now` argument passed to each operation).  The relational store of
`WarmSlot` rows becomes a `List WarmSlot`; SQLAlchemy's
`scalar_one_or_none` is modelled faithfully, raising (as `Except.error`)
when more than one row matches a non-key query.  Release of provider
resources is modelled as an observable log of `(slot id, success)` events;
`_warm_container` performs no release call in the source, so its embedding
emits an empty log.
-/

namespace Warming

/-- Lifecycle states of a warm slot (`WarmSlotStatus` in `models.py`). -/
inductive WarmSlotStatus where
  | preparing
  | ready
  | claimed
  | expired
deriving DecidableEq, Repr

/-- Compute providers (`ComputeProvider` in `models.py`). -/
inductive ComputeProvider where
  | verda
  | targon
  | localDocker
deriving DecidableEq, Repr

/-- One row of the `warm_slots` table (`WarmSlot` in `models.py`).
Ids are `Nat` stand-ins for UUIDs; timestamps are `Nat` seconds. -/
structure WarmSlot where
  id : Nat
  user_id : Nat
  template_id : String
  provider : ComputeProvider
  provider_instance_id : Option String
  status : WarmSlotStatus
  host : Option String
  port : Option Nat
  created_at : Nat
  ready_at : Option Nat
  expires_at : Nat
  claimed_at : Option Nat
deriving DecidableEq, Repr

/-- Configuration constant `WARM_SLOT_TTL_SECONDS` from `warming.py`. -/
def WARM_SLOT_TTL_SECONDS : Nat := 180

/-- Configuration constant `MAX_WARM_SLOTS_PER_USER` from `warming.py`. -/
def MAX_WARM_SLOTS_PER_USER : Nat := 2

/-- The status filter `status.in_([PREPARING, READY])` used throughout
`warming.py` to select active slots. -/
def WarmSlot.isActive (s : WarmSlot) : Bool :=
  s.status == WarmSlotStatus.preparing || s.status == WarmSlotStatus.ready

/-- The query of `trigger_warming` (warming.py:144-152): slots of the user
for the template whose status is in {preparing, ready}. -/
def findActive (store : List WarmSlot) (u : Nat) (t : String) : List WarmSlot :=
  store.filter (fun s => s.user_id == u && s.template_id == t && s.isActive)

/-- The query of `claim_warm_slot` (warming.py:287-296): ready slots of the
user for the template with `expires_at > now`. -/
def findReady (store : List WarmSlot) (u : Nat) (t : String) (now : Nat) : List WarmSlot :=
  store.filter (fun s =>
    s.user_id == u && s.template_id == t &&
    s.status == WarmSlotStatus.ready && decide (now < s.expires_at))

/-- SQLAlchemy's `Result.scalar_one_or_none`: `none` for zero rows, the row
for exactly one, and an exception (`MultipleResultsFound`) otherwise. -/
def scalarOneOrNone (l : List WarmSlot) : Except String (Option WarmSlot) :=
  match l with
  | [] => Except.ok none
  | [s] => Except.ok (some s)
  | _ => Except.error "MultipleResultsFound"

/-- Primary-key lookup `select(WarmSlot).where(WarmSlot.id == ...)`:
the id column is the primary key, so at most one row matches. -/
def findById (store : List WarmSlot) (i : Nat) : Option WarmSlot :=
  store.find? (fun s => s.id == i)

/-- In-place mutation of the ORM row with id `i` followed by a commit:
every row with that id (exactly one, ids being primary keys) is replaced
by `f` applied to it. -/
def updateSlot (store : List WarmSlot) (i : Nat) (f : WarmSlot → WarmSlot) : List WarmSlot :=
  store.map (fun s => if s.id == i then f s else s)

/-- Result dictionary of `trigger_warming` (warming.py:160-212). -/
inductive TriggerResult where
  | extended (slot_id : Nat) (status : WarmSlotStatus) (expires_at : Nat)
  | limitError (max_slots : Nat)
  | created (slot_id : Nat) (expires_at : Nat)
deriving DecidableEq, Repr

/-- The row constructed on the creation branch of `trigger_warming`
(warming.py:187-193, local `warm_slot`): provider Verda, status preparing,
`expires_at = now + TTL`; every nullable column starts null and
`created_at` takes its `default=datetime.utcnow` value. -/
def newWarmSlot (newId u : Nat) (t : String) (now : Nat) : WarmSlot :=
  { id := newId
    user_id := u
    template_id := t
    provider := ComputeProvider.verda
    provider_instance_id := none
    status := WarmSlotStatus.preparing
    host := none
    port := none
    created_at := now
    ready_at := none
    expires_at := now + WARM_SLOT_TTL_SECONDS
    claimed_at := none }

/-- `WarmingManager.trigger_warming` (warming.py:126-212).  `newId` models
the fresh UUID assigned by the `default=uuid.uuid4` column.  Returns the
result dictionary and the store after commit; the background task spawned
via `asyncio.create_task` on the creation branch is modelled by the
`created` result (the system step relation adds it to the pending set). -/
def triggerWarming (u : Nat) (t : String) (newId : Nat) (now : Nat)
    (store : List WarmSlot) : Except String (TriggerResult × List WarmSlot) :=
  match scalarOneOrNone (findActive store u t) with
  | Except.error e => Except.error e
  | Except.ok (some existing_slot) =>
      Except.ok (TriggerResult.extended existing_slot.id existing_slot.status
        (now + WARM_SLOT_TTL_SECONDS),
        updateSlot store existing_slot.id
          (fun s => { s with expires_at := now + WARM_SLOT_TTL_SECONDS }))
  | Except.ok none =>
      if MAX_WARM_SLOTS_PER_USER ≤
          (store.filter (fun s => s.user_id == u && s.isActive)).length then
        Except.ok (TriggerResult.limitError MAX_WARM_SLOTS_PER_USER, store)
      else
        Except.ok (TriggerResult.created newId (now + WARM_SLOT_TTL_SECONDS),
          store ++ [newWarmSlot newId u t now])

/-- `WarmingManager._warm_container` (warming.py:214-275).  `provisionOk`
selects the success path or the exception handler; `tok` is the random
`secrets.token_hex(4)` suffix.  The second component is the list of
provisioner release calls the task performs: the source contains no
release call on any path of this function, so it is always empty. -/
def warmContainer (slot_id : Nat) (provisionOk : Bool) (tok : String) (now : Nat)
    (store : List WarmSlot) : List WarmSlot × List (Nat × Bool) :=
  if provisionOk then
    match findById store slot_id with
    | none => (store, [])
    | some slot =>
        if slot.status == WarmSlotStatus.expired then
          (store, [])
        else
          (updateSlot store slot_id (fun s =>
            { s with status := WarmSlotStatus.ready
                     ready_at := some now
                     host := some ("warm-" ++ tok)
                     port := some 8080 }), [])
  else
    match findById store slot_id with
    | none => (store, [])
    | some _ =>
        (updateSlot store slot_id (fun s =>
          { s with status := WarmSlotStatus.expired }), [])

/-- `WarmingManager._release_warm_slot_resources` (warming.py:102-124):
returns immediately when `provider_instance_id` is unset; otherwise makes
exactly one provider deletion attempt whose failure (`releaseOk` false) is
caught and logged, never raised. -/
def releaseWarmSlotResources (slot : WarmSlot) (releaseOk : Nat → Bool) :
    List (Nat × Bool) :=
  match slot.provider_instance_id with
  | none => []
  | some _ => [(slot.id, releaseOk slot.id)]

/-- The selection predicate of `_cleanup_expired_slots` (warming.py:82-88):
status in {preparing, ready} and `expires_at < now`. -/
def sweepCandidate (now : Nat) (s : WarmSlot) : Bool :=
  s.isActive && decide (s.expires_at < now)

/-- `WarmingManager._cleanup_expired_slots` (warming.py:74-100): one sweep
pass.  Every selected slot has its resources released best-effort and its
status set to expired; all transitions commit together.  Returns the store
after commit and the log of release attempts. -/
def cleanupExpiredSlots (now : Nat) (releaseOk : Nat → Bool)
    (store : List WarmSlot) : List WarmSlot × List (Nat × Bool) :=
  let expired_slots := store.filter (sweepCandidate now)
  let log := expired_slots.flatMap (fun s => releaseWarmSlotResources s releaseOk)
  let store' := store.map (fun s =>
    if sweepCandidate now s then { s with status := WarmSlotStatus.expired } else s)
  (store', log)

/-- `WarmingManager.claim_warm_slot` (warming.py:277-304): finds a ready,
unexpired slot for the pair, marks it claimed with `claimed_at`, and
returns the mutated row; `none` when no row matched. -/
def claimWarmSlot (u : Nat) (t : String) (now : Nat) (store : List WarmSlot) :
    Except String (Option WarmSlot × List WarmSlot) :=
  match scalarOneOrNone (findReady store u t now) with
  | Except.error e => Except.error e
  | Except.ok none => Except.ok (none, store)
  | Except.ok (some slot) =>
      Except.ok (some { slot with status := WarmSlotStatus.claimed,
                                  claimed_at := some now },
        updateSlot store slot.id (fun s =>
          { s with status := WarmSlotStatus.claimed, claimed_at := some now }))

/-- Outcome of the `DELETE /api/user/warm/{slot_id}` handler. -/
inductive CancelResult where
  | notFound
  | alreadyTerminal
  | cancelled
deriving DecidableEq, Repr

/-- `cancel_warm_slot` (app_server.py:3426-3458): looks the slot up by id
and owner; 404 when absent or not owned; a failure result when already
claimed or expired; otherwise marks the slot expired and commits.  No
release call is made (the handler leaves that to the cleanup task). -/
def cancelWarmSlot (slot_id : Nat) (u : Nat) (store : List WarmSlot) :
    CancelResult × List WarmSlot :=
  match store.find? (fun s => s.id == slot_id && s.user_id == u) with
  | none => (CancelResult.notFound, store)
  | some slot =>
      if slot.status == WarmSlotStatus.claimed
          || slot.status == WarmSlotStatus.expired then
        (CancelResult.alreadyTerminal, store)
      else
        (CancelResult.cancelled,
          updateSlot store slot_id (fun s => { s with status := WarmSlotStatus.expired }))

/-!
System-level semantics.  The subsystem's operations — trigger, the
background warm task spawned per created slot, the periodic sweep pass,
claim, and cancel — interleave at suspension points of a single event
loop; sequential operation is modelled as a step relation on a state
carrying the store, the set of slot ids whose warm task has not yet run,
the accumulated log of provisioner release calls, and a non-decreasing
wall clock.
-/

/-- The observable state of the warming subsystem between operations. -/
structure SysState where
  store : List WarmSlot
  pending : List Nat
  releaseLog : List (Nat × Bool)
  time : Nat

/-- Slot ids whose warm task a trigger result schedules: exactly the
creation branch spawns `_warm_container` via `asyncio.create_task`. -/
def scheduledTask : TriggerResult → List Nat
  | TriggerResult.created i _ => [i]
  | _ => []

/-- The state at process startup: empty store, no pending task. -/
def initState : SysState :=
  { store := [], pending := [], releaseLog := [], time := 0 }

/-- One operation of the subsystem, with the wall-clock instant and the
nondeterministic choices (fresh id, provisioning success, random token,
per-slot release success) it observes. -/
inductive Event where
  | trigger (u : Nat) (t : String) (newId : Nat) (now : Nat)
  | runWarm (slotId : Nat) (provisionOk : Bool) (tok : String) (now : Nat)
  | sweep (releaseOk : Nat → Bool) (now : Nat)
  | claimSlot (u : Nat) (t : String) (now : Nat)
  | cancel (slotId : Nat) (u : Nat)

/-- Small-step semantics of sequential operation: each constructor runs
one operation to completion against the current store. -/
inductive Step : SysState → Event → SysState → Prop where
  | trigger {st : SysState} {u : Nat} {t : String} {newId now : Nat}
      {r : TriggerResult} {store' : List WarmSlot} :
      st.time ≤ now →
      (∀ s ∈ st.store, s.id ≠ newId) →
      triggerWarming u t newId now st.store = Except.ok (r, store') →
      Step st (Event.trigger u t newId now)
        { store := store'
          pending := scheduledTask r ++ st.pending
          releaseLog := st.releaseLog
          time := now }
  | runWarm {st : SysState} {i : Nat} {ok : Bool} {tok : String} {now : Nat} :
      st.time ≤ now →
      i ∈ st.pending →
      Step st (Event.runWarm i ok tok now)
        { store := (warmContainer i ok tok now st.store).1
          pending := st.pending.erase i
          releaseLog := st.releaseLog ++ (warmContainer i ok tok now st.store).2
          time := now }
  | sweep {st : SysState} {f : Nat → Bool} {now : Nat} :
      st.time ≤ now →
      Step st (Event.sweep f now)
        { store := (cleanupExpiredSlots now f st.store).1
          pending := st.pending
          releaseLog := st.releaseLog ++ (cleanupExpiredSlots now f st.store).2
          time := now }
  | claimSlot {st : SysState} {u : Nat} {t : String} {now : Nat}
      {res : Option WarmSlot} {store' : List WarmSlot} :
      st.time ≤ now →
      claimWarmSlot u t now st.store = Except.ok (res, store') →
      Step st (Event.claimSlot u t now)
        { store := store'
          pending := st.pending
          releaseLog := st.releaseLog
          time := now }
  | cancel {st : SysState} {i u : Nat} :
      Step st (Event.cancel i u)
        { store := (cancelWarmSlot i u st.store).2
          pending := st.pending
          releaseLog := st.releaseLog
          time := st.time }

/-- States reachable from process startup by sequential operation. -/
inductive Reachable : SysState → Prop where
  | start : Reachable initState
  | step {st : SysState} {e : Event} {st' : SysState} :
      Reachable st → Step st e st' → Reachable st'

/-- Reflexive-transitive closure of `Step`: any further sequence of
operations. -/
inductive Steps : SysState → SysState → Prop where
  | refl (st : SysState) : Steps st st
  | tail {st st' st'' : SysState} {e : Event} :
      Steps st st' → Step st' e st'' → Steps st st''

/-! Helper lemmas about the store operations. -/

lemma isActive_iff {s : WarmSlot} :
    s.isActive = true ↔
      (s.status = WarmSlotStatus.preparing ∨ s.status = WarmSlotStatus.ready) := by
  simp [WarmSlot.isActive]

lemma isActive_false_of_terminal {s : WarmSlot}
    (h : s.status = WarmSlotStatus.claimed ∨ s.status = WarmSlotStatus.expired) :
    s.isActive = false := by
  rcases h with h | h <;> simp [WarmSlot.isActive, h]

lemma scalarOneOrNone_ok_none {l : List WarmSlot}
    (h : scalarOneOrNone l = Except.ok none) : l = [] := by
  cases l with
  | nil => rfl
  | cons a l' => cases l' <;> simp [scalarOneOrNone] at h

lemma scalarOneOrNone_ok_some {l : List WarmSlot} {a : WarmSlot}
    (h : scalarOneOrNone l = Except.ok (some a)) : l = [a] := by
  cases l with
  | nil => simp [scalarOneOrNone] at h
  | cons b l' =>
      cases l' with
      | nil =>
          simp only [scalarOneOrNone, Except.ok.injEq, Option.some.injEq] at h
          rw [h]
      | cons c l'' => simp [scalarOneOrNone] at h

lemma mem_findActive {store : List WarmSlot} {u : Nat} {t : String} {s : WarmSlot} :
    s ∈ findActive store u t ↔
      s ∈ store ∧ s.user_id = u ∧ s.template_id = t ∧ s.isActive = true := by
  simp [findActive, List.mem_filter, and_assoc]

lemma mem_findReady {store : List WarmSlot} {u : Nat} {t : String} {now : Nat}
    {s : WarmSlot} :
    s ∈ findReady store u t now ↔
      s ∈ store ∧ s.user_id = u ∧ s.template_id = t ∧
        s.status = WarmSlotStatus.ready ∧ now < s.expires_at := by
  simp [findReady, List.mem_filter, and_assoc]

lemma findById_some {store : List WarmSlot} {i : Nat} {s : WarmSlot}
    (h : findById store i = some s) : s ∈ store ∧ s.id = i := by
  refine ⟨List.mem_of_find?_eq_some h, ?_⟩
  have := List.find?_some h
  simpa using this

lemma updateSlot_mem_image {store : List WarmSlot} {i : Nat} {f : WarmSlot → WarmSlot}
    {s : WarmSlot} (hs : s ∈ store) :
    (if (s.id == i) = true then f s else s) ∈ updateSlot store i f :=
  List.mem_map.mpr ⟨s, hs, rfl⟩

lemma updateSlot_cases {store : List WarmSlot} {i : Nat} {f : WarmSlot → WarmSlot}
    {s' : WarmSlot} (h : s' ∈ updateSlot store i f) :
    (∃ s, s ∈ store ∧ s.id = i ∧ s' = f s) ∨ (s' ∈ store ∧ s'.id ≠ i) := by
  obtain ⟨s, hs, heq⟩ := List.mem_map.mp h
  by_cases hid : s.id = i
  · left; exact ⟨s, hs, hid, by simp [hid] at heq; exact heq.symm⟩
  · right
    have : (s.id == i) = false := by simpa using hid
    rw [this] at heq
    simp only [Bool.false_eq_true, if_false] at heq
    exact heq ▸ ⟨hs, hid⟩

lemma mem_updateSlot_of_ne {store : List WarmSlot} {i : Nat} {f : WarmSlot → WarmSlot}
    {s : WarmSlot} (hs : s ∈ store) (hne : s.id ≠ i) : s ∈ updateSlot store i f := by
  have hbeq : (s.id == i) = false := by simpa using hne
  have := updateSlot_mem_image (i := i) (f := f) hs
  rwa [hbeq, if_neg (by simp)] at this

lemma mem_updateSlot_of_eq {store : List WarmSlot} {i : Nat} {f : WarmSlot → WarmSlot}
    {s : WarmSlot} (hs : s ∈ store) (hid : s.id = i) : f s ∈ updateSlot store i f := by
  have hbeq : (s.id == i) = true := by simpa using hid
  have := updateSlot_mem_image (i := i) (f := f) hs
  rwa [hbeq, if_pos rfl] at this

lemma updateSlot_map_id {store : List WarmSlot} {i : Nat} {f : WarmSlot → WarmSlot}
    (h : ∀ s, (f s).id = s.id) :
    (updateSlot store i f).map WarmSlot.id = store.map WarmSlot.id := by
  simp only [updateSlot, List.map_map]
  apply List.map_congr_left
  intro s _
  by_cases hs : (s.id == i) = true <;> simp [Function.comp, hs, h]

lemma mem_eq_of_id {store : List WarmSlot} (hn : (store.map WarmSlot.id).Nodup)
    {a b : WarmSlot} (ha : a ∈ store) (hb : b ∈ store) (h : a.id = b.id) : a = b :=
  List.inj_on_of_nodup_map hn ha hb h

lemma countP_map_le (l : List WarmSlot) (g : WarmSlot → WarmSlot) (p : WarmSlot → Bool)
    (h : ∀ s ∈ l, p (g s) = true → p s = true) :
    (l.map g).countP p ≤ l.countP p := by
  induction l with
  | nil => simp
  | cons x xs ih =>
      simp only [List.map_cons, List.countP_cons]
      have hx := h x (List.mem_cons_self x xs)
      have hxs := ih (fun s hs => h s (List.mem_cons_of_mem x hs))
      refine Nat.add_le_add hxs ?_
      by_cases hgx : (p (g x) = true)
      · rw [if_pos hgx, if_pos (hx hgx)]
      · rw [if_neg hgx]
        exact Nat.zero_le _

lemma countP_map_eq (l : List WarmSlot) (g : WarmSlot → WarmSlot) (p : WarmSlot → Bool)
    (h : ∀ s ∈ l, p (g s) = p s) :
    (l.map g).countP p = l.countP p := by
  induction l with
  | nil => simp
  | cons x xs ih =>
      simp only [List.map_cons, List.countP_cons]
      rw [h x (List.mem_cons_self x xs), ih (fun s hs => h s (List.mem_cons_of_mem x hs))]

lemma filter_eq_singleton {l : List WarmSlot} {p : WarmSlot → Bool} {a : WarmSlot}
    (hn : l.Nodup) (ha : a ∈ l) (hpa : p a = true)
    (huniq : ∀ b ∈ l, p b = true → b = a) : l.filter p = [a] := by
  induction l with
  | nil => cases ha
  | cons x xs ih =>
      rcases List.mem_cons.mp ha with rfl | hmem
      · have hrest : xs.filter p = [] := by
          rw [List.filter_eq_nil_iff]
          intro b hb hpb
          have hba : b = a := huniq b (List.mem_cons_of_mem a hb) hpb
          exact (List.nodup_cons.mp hn).1 (hba ▸ hb)
        simp [List.filter_cons, hpa, hrest]
      · have hx : p x = false := by
          by_contra hpx
          rw [Bool.not_eq_false] at hpx
          have : x = a := huniq x (List.mem_cons_self x xs) hpx
          exact (List.nodup_cons.mp hn).1 (this ▸ hmem)
        rw [List.filter_cons_of_neg (by simp [hx])]
        exact ih (List.nodup_cons.mp hn).2 hmem
          (fun b hb hpb => huniq b (List.mem_cons_of_mem x hb) hpb)

/-! The inductive invariant of the subsystem. -/

/-- Invariant maintained by every operation, established at startup. -/
structure Inv (st : SysState) : Prop where
  nodup : (st.store.map WarmSlot.id).Nodup
  pendingNodup : st.pending.Nodup
  pendingInStore : ∀ i ∈ st.pending, ∃ s ∈ st.store, s.id = i
  pendingStatus : ∀ s ∈ st.store, s.id ∈ st.pending →
    s.status = WarmSlotStatus.preparing ∨ s.status = WarmSlotStatus.expired
  pairUnique : ∀ a ∈ st.store, ∀ b ∈ st.store, a.isActive = true → b.isActive = true →
    a.user_id = b.user_id → a.template_id = b.template_id → a.id = b.id
  cap : ∀ u, (st.store.filter (fun s => s.user_id == u && s.isActive)).length ≤
    MAX_WARM_SLOTS_PER_USER
  hostPort : ∀ s ∈ st.store,
    ((s.status = WarmSlotStatus.ready ∨ s.status = WarmSlotStatus.claimed) →
      s.host.isSome = true ∧ s.port.isSome = true) ∧
    (s.status = WarmSlotStatus.preparing → s.host = none ∧ s.port = none)
  ttl : ∀ s ∈ st.store, s.isActive = true →
    s.expires_at ≤ st.time + WARM_SLOT_TTL_SECONDS

lemma inv_initState : Inv initState := by
  constructor <;> simp [initState]

lemma storeNodup {st : SysState} (h : Inv st) : st.store.Nodup :=
  h.nodup.of_map WarmSlot.id

lemma inv_trigger {st : SysState} {u : Nat} {t : String} {newId now : Nat}
    {r : TriggerResult} {store' : List WarmSlot}
    (hinv : Inv st) (htime : st.time ≤ now) (hfresh : ∀ s ∈ st.store, s.id ≠ newId)
    (heq : triggerWarming u t newId now st.store = Except.ok (r, store')) :
    Inv { store := store', pending := scheduledTask r ++ st.pending,
          releaseLog := st.releaseLog, time := now } := by
  unfold triggerWarming at heq
  cases hq : scalarOneOrNone (findActive st.store u t) with
  | error e => rw [hq] at heq; cases heq
  | ok o =>
    rw [hq] at heq
    cases o with
    | some ex =>
        have hfa : findActive st.store u t = [ex] := scalarOneOrNone_ok_some hq
        have hex : ex ∈ st.store ∧ ex.user_id = u ∧ ex.template_id = t ∧
            ex.isActive = true := by
          have hm : ex ∈ findActive st.store u t := by
            rw [hfa]; exact List.mem_cons_self ex []
          exact mem_findActive.mp hm
        dsimp only at heq
        rw [Except.ok.injEq, Prod.mk.injEq] at heq
        obtain ⟨hr, hs⟩ := heq
        subst hs; subst hr
        constructor
        · dsimp only
          rw [updateSlot_map_id
            (f := fun s => { s with expires_at := now + WARM_SLOT_TTL_SECONDS })
            (fun s => rfl)]
          exact hinv.nodup
        · exact hinv.pendingNodup
        · intro i hi
          obtain ⟨s, hs, hid⟩ := hinv.pendingInStore i hi
          by_cases h : s.id = ex.id
          · exact ⟨_, mem_updateSlot_of_eq hs h, hid⟩
          · exact ⟨s, mem_updateSlot_of_ne hs h, hid⟩
        · intro s' hs' hid
          rcases updateSlot_cases hs' with ⟨s, hs, _, rfl⟩ | ⟨hs, _⟩
          · exact hinv.pendingStatus s hs hid
          · exact hinv.pendingStatus s' hs hid
        · intro a' ha' b' hb' haact hbact huser htem
          rcases updateSlot_cases ha' with ⟨a, ha, _, rfl⟩ | ⟨ha, _⟩
          · rcases updateSlot_cases hb' with ⟨b, hb, _, rfl⟩ | ⟨hb, _⟩
            · exact hinv.pairUnique a ha b hb haact hbact huser htem
            · exact hinv.pairUnique a ha b' hb haact hbact huser htem
          · rcases updateSlot_cases hb' with ⟨b, hb, _, rfl⟩ | ⟨hb, _⟩
            · exact hinv.pairUnique a' ha b hb haact hbact huser htem
            · exact hinv.pairUnique a' ha b' hb haact hbact huser htem
        · intro u'
          dsimp only
          have hpt : ∀ s ∈ st.store,
              ((fun s => s.user_id == u' && s.isActive)
                ((fun s => if (s.id == ex.id) = true then
                    { s with expires_at := now + WARM_SLOT_TTL_SECONDS } else s) s)) =
              ((fun s => s.user_id == u' && s.isActive) s) := by
            intro s _
            cases h : (s.id == ex.id) <;> simp [h, WarmSlot.isActive]
          calc ((updateSlot st.store ex.id
                (fun s => { s with expires_at := now + WARM_SLOT_TTL_SECONDS })).filter
                  (fun s => s.user_id == u' && s.isActive)).length
              = (updateSlot st.store ex.id
                (fun s => { s with expires_at := now + WARM_SLOT_TTL_SECONDS })).countP
                  (fun s => s.user_id == u' && s.isActive) :=
                (List.countP_eq_length_filter _ _).symm
            _ = st.store.countP (fun s => s.user_id == u' && s.isActive) :=
                countP_map_eq st.store _ _ hpt
            _ = (st.store.filter (fun s => s.user_id == u' && s.isActive)).length :=
                List.countP_eq_length_filter _ _
            _ ≤ MAX_WARM_SLOTS_PER_USER := hinv.cap u'
        · intro s' hs'
          rcases updateSlot_cases hs' with ⟨s, hs, _, rfl⟩ | ⟨hs, _⟩
          · exact hinv.hostPort s hs
          · exact hinv.hostPort s' hs
        · intro s' hs' hact
          rcases updateSlot_cases hs' with ⟨s, hs, _, rfl⟩ | ⟨hs, _⟩
          · exact Nat.le_refl _
          · dsimp only
            have := hinv.ttl s' hs hact
            omega
    | none =>
        have hfa : findActive st.store u t = [] := scalarOneOrNone_ok_none hq
        have hno : ∀ s ∈ st.store, s.user_id = u → s.template_id = t →
            s.isActive = true → False := by
          intro s hs hsu hst hsa
          have : s ∈ findActive st.store u t := mem_findActive.mpr ⟨hs, hsu, hst, hsa⟩
          rw [hfa] at this
          cases this
        dsimp only at heq
        by_cases hcap : MAX_WARM_SLOTS_PER_USER ≤
            (st.store.filter (fun s => s.user_id == u && s.isActive)).length
        · rw [if_pos hcap] at heq
          rw [Except.ok.injEq, Prod.mk.injEq] at heq
          obtain ⟨hr, hs⟩ := heq
          subst hs; subst hr
          constructor
          · exact hinv.nodup
          · exact hinv.pendingNodup
          · exact hinv.pendingInStore
          · exact hinv.pendingStatus
          · exact hinv.pairUnique
          · exact hinv.cap
          · exact hinv.hostPort
          · intro s hs hact
            dsimp only
            have := hinv.ttl s hs hact
            omega
        · rw [if_neg hcap] at heq
          rw [Except.ok.injEq, Prod.mk.injEq] at heq
          obtain ⟨hr, hs⟩ := heq
          subst hs; subst hr
          constructor
          · dsimp only
            rw [List.map_append]
            refine List.Nodup.append hinv.nodup (by simp) ?_
            intro x hx1 hx2
            simp only [List.map_cons, List.map_nil, List.mem_singleton] at hx2
            obtain ⟨s, hs, hsid⟩ := List.mem_map.mp hx1
            exact hfresh s hs (by rw [hsid, hx2]; rfl)
          · refine List.nodup_cons.mpr ⟨?_, hinv.pendingNodup⟩
            intro hmem
            obtain ⟨s, hs, hid⟩ := hinv.pendingInStore newId hmem
            exact hfresh s hs hid
          · intro i hi
            rcases List.mem_cons.mp hi with rfl | hi'
            · exact ⟨_, List.mem_append_right _ (List.mem_singleton.mpr rfl), rfl⟩
            · obtain ⟨s, hs, hid⟩ := hinv.pendingInStore i hi'
              exact ⟨s, List.mem_append_left _ hs, hid⟩
          · intro s hs hid
            rcases List.mem_append.mp hs with hs' | hs'
            · rcases List.mem_cons.mp hid with heqid | hid'
              · exact absurd heqid (hfresh s hs')
              · exact hinv.pendingStatus s hs' hid'
            · rw [List.mem_singleton.mp hs']
              exact Or.inl rfl
          · intro a ha b hb haact hbact huser htem
            rcases List.mem_append.mp ha with ha' | ha' <;>
              rcases List.mem_append.mp hb with hb' | hb'
            · exact hinv.pairUnique a ha' b hb' haact hbact huser htem
            · rw [List.mem_singleton.mp hb'] at huser htem
              exact (hno a ha' huser htem haact).elim
            · rw [List.mem_singleton.mp ha'] at huser htem
              exact (hno b hb' huser.symm htem.symm hbact).elim
            · rw [List.mem_singleton.mp ha', List.mem_singleton.mp hb']
          · intro u'
            dsimp only
            rw [List.filter_append, List.length_append]
            by_cases hu : u' = u
            · subst hu
              have hsl : ([newWarmSlot newId u' t now].filter
                  (fun s => s.user_id == u' && s.isActive)).length ≤ 1 := by
                simp [List.filter, newWarmSlot, WarmSlot.isActive]
              have hlt := Nat.lt_of_not_le hcap
              omega
            · have hsl : ([newWarmSlot newId u t now].filter
                  (fun s => s.user_id == u' && s.isActive)).length = 0 := by
                have : ((newWarmSlot newId u t now).user_id == u') = false := by
                  simp [newWarmSlot]
                  intro h
                  exact hu h.symm
                simp [List.filter, this]
              rw [hsl]
              have := hinv.cap u'
              omega
          · intro s hs
            rcases List.mem_append.mp hs with hs' | hs'
            · exact hinv.hostPort s hs'
            · rw [List.mem_singleton.mp hs']
              refine ⟨?_, fun _ => ⟨rfl, rfl⟩⟩
              intro h
              rcases h with h | h <;> cases h
          · intro s hs hact
            dsimp only
            rcases List.mem_append.mp hs with hs' | hs'
            · have := hinv.ttl s hs' hact
              omega
            · rw [List.mem_singleton.mp hs']
              exact Nat.le_refl _

lemma map_preserve_id {store : List WarmSlot} {g : WarmSlot → WarmSlot}
    (h : ∀ s, (g s).id = s.id) :
    (store.map g).map WarmSlot.id = store.map WarmSlot.id := by
  rw [List.map_map]
  exact List.map_congr_left (fun s _ => h s)

lemma filter_length_map_le {store : List WarmSlot} {g : WarmSlot → WarmSlot}
    (p : WarmSlot → Bool) (h : ∀ s ∈ store, p (g s) = true → p s = true) :
    ((store.map g).filter p).length ≤ (store.filter p).length := by
  rw [← List.countP_eq_length_filter, ← List.countP_eq_length_filter]
  exact countP_map_le store g p h

lemma filter_length_map_eq {store : List WarmSlot} {g : WarmSlot → WarmSlot}
    (p : WarmSlot → Bool) (h : ∀ s ∈ store, p (g s) = p s) :
    ((store.map g).filter p).length = (store.filter p).length := by
  rw [← List.countP_eq_length_filter, ← List.countP_eq_length_filter]
  exact countP_map_eq store g p h

lemma inv_runWarm {st : SysState} {i : Nat} {ok : Bool} {tok : String} {now : Nat}
    (hinv : Inv st) (htime : st.time ≤ now) (hpend : i ∈ st.pending) :
    Inv { store := (warmContainer i ok tok now st.store).1
          pending := st.pending.erase i
          releaseLog := st.releaseLog ++ (warmContainer i ok tok now st.store).2
          time := now } := by
  have hsame : ∀ log : List (Nat × Bool),
      Inv { store := st.store, pending := st.pending.erase i,
            releaseLog := st.releaseLog ++ log, time := now } := by
    intro log
    constructor
    · exact hinv.nodup
    · exact hinv.pendingNodup.erase i
    · intro j hj
      exact hinv.pendingInStore j (List.mem_of_mem_erase hj)
    · intro s hs hid
      exact hinv.pendingStatus s hs (List.mem_of_mem_erase hid)
    · exact hinv.pairUnique
    · exact hinv.cap
    · exact hinv.hostPort
    · intro s hs hact
      dsimp only
      have := hinv.ttl s hs hact
      omega
  cases ok with
  | true =>
      cases hf : findById st.store i with
      | none =>
          have hw : warmContainer i true tok now st.store = (st.store, []) := by
            simp [warmContainer, hf]
          rw [hw]
          dsimp only
          exact hsame []
      | some slot =>
          obtain ⟨hmem, hid⟩ := findById_some hf
          have hstat := hinv.pendingStatus slot hmem (hid ▸ hpend)
          cases hexp : slot.status == WarmSlotStatus.expired with
          | true =>
            have hw : warmContainer i true tok now st.store = (st.store, []) := by
              simp [warmContainer, hf, hexp]
            rw [hw]
            dsimp only
            exact hsame []
          | false =>
            have hprep : slot.status = WarmSlotStatus.preparing := by
              rcases hstat with h | h
              · exact h
              · rw [h] at hexp
                simp at hexp
            have hw : warmContainer i true tok now st.store =
                (updateSlot st.store i (fun s =>
                  { s with status := WarmSlotStatus.ready
                           ready_at := some now
                           host := some ("warm-" ++ tok)
                           port := some 8080 }), []) := by
              simp [warmContainer, hf, hexp]
            rw [hw]
            dsimp only
            have hself : ∀ s ∈ st.store, s.id = i → s = slot := by
              intro s hs h
              exact mem_eq_of_id hinv.nodup hs hmem (h.trans hid.symm)
            constructor
            · dsimp only
              rw [updateSlot_map_id (f := fun s =>
                  { s with status := WarmSlotStatus.ready, ready_at := some now,
                           host := some ("warm-" ++ tok), port := some 8080 })
                (fun s => rfl)]
              exact hinv.nodup
            · exact hinv.pendingNodup.erase i
            · intro j hj
              obtain ⟨s, hs, hsid⟩ := hinv.pendingInStore j (List.mem_of_mem_erase hj)
              by_cases h : s.id = i
              · exact ⟨_, mem_updateSlot_of_eq hs h, hsid⟩
              · exact ⟨s, mem_updateSlot_of_ne hs h, hsid⟩
            · intro s' hs' hid'
              rcases updateSlot_cases hs' with ⟨s, hs, hsid, rfl⟩ | ⟨hs, _⟩
              · exfalso
                subst hsid
                exact hinv.pendingNodup.not_mem_erase hid'
              · exact hinv.pendingStatus s' hs (List.mem_of_mem_erase hid')
            · intro a' ha' b' hb' haact hbact huser htem
              rcases updateSlot_cases ha' with ⟨a, ha, haid, rfl⟩ | ⟨ha, _⟩
              · have haslot : a = slot := hself a ha haid
                have haact' : a.isActive = true := by
                  rw [haslot]
                  simp [WarmSlot.isActive, hprep]
                rcases updateSlot_cases hb' with ⟨b, hb, hbid, rfl⟩ | ⟨hb, _⟩
                · have hbslot : b = slot := hself b hb hbid
                  have hbact' : b.isActive = true := by
                    rw [hbslot]
                    simp [WarmSlot.isActive, hprep]
                  exact hinv.pairUnique a ha b hb haact' hbact' huser htem
                · exact hinv.pairUnique a ha b' hb haact' hbact huser htem
              · rcases updateSlot_cases hb' with ⟨b, hb, hbid, rfl⟩ | ⟨hb, _⟩
                · have hbslot : b = slot := hself b hb hbid
                  have hbact' : b.isActive = true := by
                    rw [hbslot]
                    simp [WarmSlot.isActive, hprep]
                  exact hinv.pairUnique a' ha b hb haact hbact' huser htem
                · exact hinv.pairUnique a' ha b' hb haact hbact huser htem
            · intro u'
              dsimp only
              have heqf : ((updateSlot st.store i (fun s =>
                  { s with status := WarmSlotStatus.ready, ready_at := some now,
                           host := some ("warm-" ++ tok), port := some 8080 })).filter
                    (fun s => s.user_id == u' && s.isActive)).length =
                  (st.store.filter (fun s => s.user_id == u' && s.isActive)).length := by
                apply filter_length_map_eq
                intro s hs
                cases h : (s.id == i) <;> simp only [h, Bool.false_eq_true, if_false, if_true]
                have hsl : s = slot := hself s hs (by simpa using h)
                rw [hsl]
                simp [WarmSlot.isActive, hprep]
              rw [heqf]
              exact hinv.cap u'
            · intro s' hs'
              rcases updateSlot_cases hs' with ⟨s, hs, hsid, rfl⟩ | ⟨hs, _⟩
              · refine ⟨fun _ => ⟨rfl, rfl⟩, ?_⟩
                intro h
                cases h
              · exact hinv.hostPort s' hs
            · intro s' hs' hact
              rcases updateSlot_cases hs' with ⟨s, hs, hsid, rfl⟩ | ⟨hs, _⟩
              · have hsl : s = slot := hself s hs hsid
                dsimp only
                have hb := hinv.ttl slot hmem (by simp [WarmSlot.isActive, hprep])
                have : s.expires_at = slot.expires_at := by rw [hsl]
                omega
              · dsimp only
                have := hinv.ttl s' hs hact
                omega
  | false =>
      cases hf : findById st.store i with
      | none =>
          have hw : warmContainer i false tok now st.store = (st.store, []) := by
            simp [warmContainer, hf]
          rw [hw]
          dsimp only
          exact hsame []
      | some slot =>
          obtain ⟨hmem, hid⟩ := findById_some hf
          have hw : warmContainer i false tok now st.store =
              (updateSlot st.store i (fun s =>
                { s with status := WarmSlotStatus.expired }), []) := by
            simp [warmContainer, hf]
          rw [hw]
          dsimp only
          constructor
          · dsimp only
            rw [updateSlot_map_id (f := fun s =>
                { s with status := WarmSlotStatus.expired }) (fun s => rfl)]
            exact hinv.nodup
          · exact hinv.pendingNodup.erase i
          · intro j hj
            obtain ⟨s, hs, hsid⟩ := hinv.pendingInStore j (List.mem_of_mem_erase hj)
            by_cases h : s.id = i
            · exact ⟨_, mem_updateSlot_of_eq hs h, hsid⟩
            · exact ⟨s, mem_updateSlot_of_ne hs h, hsid⟩
          · intro s' hs' hid'
            rcases updateSlot_cases hs' with ⟨s, hs, hsid, rfl⟩ | ⟨hs, _⟩
            · exact Or.inr rfl
            · exact hinv.pendingStatus s' hs (List.mem_of_mem_erase hid')
          · intro a' ha' b' hb' haact hbact huser htem
            rcases updateSlot_cases ha' with ⟨a, ha, haid, rfl⟩ | ⟨ha, _⟩
            · exact absurd haact (by simp [WarmSlot.isActive])
            · rcases updateSlot_cases hb' with ⟨b, hb, hbid, rfl⟩ | ⟨hb, _⟩
              · exact absurd hbact (by simp [WarmSlot.isActive])
              · exact hinv.pairUnique a' ha b' hb haact hbact huser htem
          · intro u'
            dsimp only
            have hle : ((updateSlot st.store i (fun s =>
                { s with status := WarmSlotStatus.expired })).filter
                  (fun s => s.user_id == u' && s.isActive)).length ≤
                (st.store.filter (fun s => s.user_id == u' && s.isActive)).length := by
              apply filter_length_map_le
              intro s hs hp
              cases h : (s.id == i)
              · rw [h] at hp
                simpa using hp
              · rw [h] at hp
                simp only [if_true] at hp
                simp [WarmSlot.isActive] at hp
            exact Nat.le_trans hle (hinv.cap u')
          · intro s' hs'
            rcases updateSlot_cases hs' with ⟨s, hs, hsid, rfl⟩ | ⟨hs, _⟩
            · refine ⟨?_, ?_⟩
              · intro h
                rcases h with h | h <;> cases h
              · intro h
                cases h
            · exact hinv.hostPort s' hs
          · intro s' hs' hact
            rcases updateSlot_cases hs' with ⟨s, hs, hsid, rfl⟩ | ⟨hs, _⟩
            · exact absurd hact (by simp [WarmSlot.isActive])
            · dsimp only
              have := hinv.ttl s' hs hact
              omega

lemma inv_sweep {st : SysState} {f : Nat → Bool} {now : Nat}
    (hinv : Inv st) (htime : st.time ≤ now) :
    Inv { store := (cleanupExpiredSlots now f st.store).1
          pending := st.pending
          releaseLog := st.releaseLog ++ (cleanupExpiredSlots now f st.store).2
          time := now } := by
  have hst : (cleanupExpiredSlots now f st.store).1 = st.store.map (fun s =>
      if sweepCandidate now s then { s with status := WarmSlotStatus.expired }
      else s) := rfl
  rw [hst]
  constructor
  · dsimp only
    rw [map_preserve_id (fun s => by cases hc : sweepCandidate now s <;> simp [hc])]
    exact hinv.nodup
  · exact hinv.pendingNodup
  · intro j hj
    obtain ⟨s, hs, hsid⟩ := hinv.pendingInStore j hj
    refine ⟨_, List.mem_map_of_mem _ hs, ?_⟩
    cases hc : sweepCandidate now s <;> simp [hc, hsid]
  · intro s' hs' hid'
    obtain ⟨s, hs, rfl⟩ := List.mem_map.mp hs'
    cases hc : sweepCandidate now s
    · simp only [hc, Bool.false_eq_true, if_false] at hid' ⊢
      exact hinv.pendingStatus s hs hid'
    · simp [hc]
  · intro a' ha' b' hb' haact hbact huser htem
    obtain ⟨a, ha, rfl⟩ := List.mem_map.mp ha'
    obtain ⟨b, hb, rfl⟩ := List.mem_map.mp hb'
    cases hca : sweepCandidate now a
    · cases hcb : sweepCandidate now b
      · simp only [hca, hcb, Bool.false_eq_true, if_false] at haact hbact huser htem ⊢
        exact hinv.pairUnique a ha b hb haact hbact huser htem
      · simp [hcb, WarmSlot.isActive] at hbact
    · simp [hca, WarmSlot.isActive] at haact
  · intro u'
    dsimp only
    have hle := @filter_length_map_le st.store
      (fun s => if sweepCandidate now s then { s with status := WarmSlotStatus.expired }
        else s)
      (fun s => s.user_id == u' && s.isActive)
      (by
        intro s hs hp
        cases hc : sweepCandidate now s
        · simpa [hc] using hp
        · simp [hc, WarmSlot.isActive] at hp)
    exact Nat.le_trans hle (hinv.cap u')
  · intro s' hs'
    obtain ⟨s, hs, rfl⟩ := List.mem_map.mp hs'
    cases hc : sweepCandidate now s
    · simp only [hc, Bool.false_eq_true, if_false]
      exact hinv.hostPort s hs
    · simp [hc]
  · intro s' hs' hact
    obtain ⟨s, hs, rfl⟩ := List.mem_map.mp hs'
    cases hc : sweepCandidate now s
    · simp only [hc, Bool.false_eq_true, if_false] at hact ⊢
      have := hinv.ttl s hs hact
      omega
    · simp [hc, WarmSlot.isActive] at hact

lemma inv_claim {st : SysState} {u : Nat} {t : String} {now : Nat}
    {res : Option WarmSlot} {store' : List WarmSlot}
    (hinv : Inv st) (htime : st.time ≤ now)
    (heq : claimWarmSlot u t now st.store = Except.ok (res, store')) :
    Inv { store := store', pending := st.pending,
          releaseLog := st.releaseLog, time := now } := by
  unfold claimWarmSlot at heq
  cases hq : scalarOneOrNone (findReady st.store u t now) with
  | error e => rw [hq] at heq; cases heq
  | ok o =>
    rw [hq] at heq
    cases o with
    | none =>
        dsimp only at heq
        rw [Except.ok.injEq, Prod.mk.injEq] at heq
        obtain ⟨hr, hs⟩ := heq
        subst hs
        constructor
        · exact hinv.nodup
        · exact hinv.pendingNodup
        · exact hinv.pendingInStore
        · exact hinv.pendingStatus
        · exact hinv.pairUnique
        · exact hinv.cap
        · exact hinv.hostPort
        · intro s hs hact
          dsimp only
          have := hinv.ttl s hs hact
          omega
    | some slot =>
        have hfr : findReady st.store u t now = [slot] := scalarOneOrNone_ok_some hq
        have hslot : slot ∈ st.store ∧ slot.user_id = u ∧ slot.template_id = t ∧
            slot.status = WarmSlotStatus.ready ∧ now < slot.expires_at := by
          have hm : slot ∈ findReady st.store u t now := by
            rw [hfr]; exact List.mem_cons_self slot []
          exact mem_findReady.mp hm
        obtain ⟨hmem, -, -, hready, -⟩ := hslot
        have hself : ∀ s ∈ st.store, s.id = slot.id → s = slot := by
          intro s hs h
          exact mem_eq_of_id hinv.nodup hs hmem h
        dsimp only at heq
        rw [Except.ok.injEq, Prod.mk.injEq] at heq
        obtain ⟨hr, hs⟩ := heq
        subst hs
        constructor
        · dsimp only
          rw [updateSlot_map_id (f := fun s =>
              { s with status := WarmSlotStatus.claimed, claimed_at := some now })
            (fun s => rfl)]
          exact hinv.nodup
        · exact hinv.pendingNodup
        · intro j hj
          obtain ⟨s, hs, hsid⟩ := hinv.pendingInStore j hj
          by_cases h : s.id = slot.id
          · exact ⟨_, mem_updateSlot_of_eq hs h, hsid⟩
          · exact ⟨s, mem_updateSlot_of_ne hs h, hsid⟩
        · intro s' hs' hid'
          rcases updateSlot_cases hs' with ⟨s, hs, hsid, rfl⟩ | ⟨hs, _⟩
          · exfalso
            have hidp : s.id ∈ st.pending := hid'
            rw [hself s hs hsid] at hidp
            rcases hinv.pendingStatus slot hmem hidp with h | h <;>
              rw [hready] at h <;> cases h
          · exact hinv.pendingStatus s' hs hid'
        · intro a' ha' b' hb' haact hbact huser htem
          rcases updateSlot_cases ha' with ⟨a, ha, haid, rfl⟩ | ⟨ha, _⟩
          · exact absurd haact (by simp [WarmSlot.isActive])
          · rcases updateSlot_cases hb' with ⟨b, hb, hbid, rfl⟩ | ⟨hb, _⟩
            · exact absurd hbact (by simp [WarmSlot.isActive])
            · exact hinv.pairUnique a' ha b' hb haact hbact huser htem
        · intro u'
          dsimp only
          have hle : ((updateSlot st.store slot.id (fun s =>
              { s with status := WarmSlotStatus.claimed,
                       claimed_at := some now })).filter
                (fun s => s.user_id == u' && s.isActive)).length ≤
              (st.store.filter (fun s => s.user_id == u' && s.isActive)).length := by
            apply filter_length_map_le
            intro s hs hp
            cases h : (s.id == slot.id)
            · rw [h] at hp
              simpa using hp
            · rw [h] at hp
              simp only [if_true] at hp
              simp [WarmSlot.isActive] at hp
          exact Nat.le_trans hle (hinv.cap u')
        · intro s' hs'
          rcases updateSlot_cases hs' with ⟨s, hs, hsid, rfl⟩ | ⟨hs, _⟩
          · have hsl : s = slot := hself s hs hsid
            subst hsl
            refine ⟨fun _ => ?_, fun h => ?_⟩
            · exact (hinv.hostPort s hmem).1 (Or.inl hready)
            · cases h
          · exact hinv.hostPort s' hs
        · intro s' hs' hact
          rcases updateSlot_cases hs' with ⟨s, hs, hsid, rfl⟩ | ⟨hs, _⟩
          · exact absurd hact (by simp [WarmSlot.isActive])
          · dsimp only
            have := hinv.ttl s' hs hact
            omega

lemma inv_cancel {st : SysState} {i u : Nat} (hinv : Inv st) :
    Inv { store := (cancelWarmSlot i u st.store).2, pending := st.pending,
          releaseLog := st.releaseLog, time := st.time } := by
  unfold cancelWarmSlot
  cases hf : st.store.find? (fun s => s.id == i && s.user_id == u) with
  | none =>
      dsimp only
      exact hinv
  | some slot =>
      have hmem : slot ∈ st.store := List.mem_of_find?_eq_some hf
      cases hterm : (slot.status == WarmSlotStatus.claimed
          || slot.status == WarmSlotStatus.expired) with
      | true =>
          dsimp only
          rw [if_pos hterm]
          exact hinv
      | false =>
          dsimp only
          rw [if_neg (by simp [hterm])]
          constructor
          · dsimp only
            rw [updateSlot_map_id (f := fun s =>
                { s with status := WarmSlotStatus.expired }) (fun s => rfl)]
            exact hinv.nodup
          · exact hinv.pendingNodup
          · intro j hj
            obtain ⟨s, hs, hsid⟩ := hinv.pendingInStore j hj
            by_cases h : s.id = i
            · exact ⟨_, mem_updateSlot_of_eq hs h, hsid⟩
            · exact ⟨s, mem_updateSlot_of_ne hs h, hsid⟩
          · intro s' hs' hid'
            rcases updateSlot_cases hs' with ⟨s, hs, hsid, rfl⟩ | ⟨hs, _⟩
            · exact Or.inr rfl
            · exact hinv.pendingStatus s' hs hid'
          · intro a' ha' b' hb' haact hbact huser htem
            rcases updateSlot_cases ha' with ⟨a, ha, haid, rfl⟩ | ⟨ha, _⟩
            · exact absurd haact (by simp [WarmSlot.isActive])
            · rcases updateSlot_cases hb' with ⟨b, hb, hbid, rfl⟩ | ⟨hb, _⟩
              · exact absurd hbact (by simp [WarmSlot.isActive])
              · exact hinv.pairUnique a' ha b' hb haact hbact huser htem
          · intro u'
            dsimp only
            have hle : ((updateSlot st.store i (fun s =>
                { s with status := WarmSlotStatus.expired })).filter
                  (fun s => s.user_id == u' && s.isActive)).length ≤
                (st.store.filter (fun s => s.user_id == u' && s.isActive)).length := by
              apply filter_length_map_le
              intro s hs hp
              cases h : (s.id == i)
              · rw [h] at hp
                simpa using hp
              · rw [h] at hp
                simp only [if_true] at hp
                simp [WarmSlot.isActive] at hp
            exact Nat.le_trans hle (hinv.cap u')
          · intro s' hs'
            rcases updateSlot_cases hs' with ⟨s, hs, hsid, rfl⟩ | ⟨hs, _⟩
            · refine ⟨fun h => ?_, fun h => ?_⟩
              · rcases h with h | h <;> cases h
              · cases h
            · exact hinv.hostPort s' hs
          · intro s' hs' hact
            rcases updateSlot_cases hs' with ⟨s, hs, hsid, rfl⟩ | ⟨hs, _⟩
            · exact absurd hact (by simp [WarmSlot.isActive])
            · exact hinv.ttl s' hs hact

/-- Every single operation preserves the invariant. -/
lemma inv_step {st : SysState} {e : Event} {st' : SysState}
    (hinv : Inv st) (h : Step st e st') : Inv st' := by
  cases h with
  | trigger htime hfresh heq => exact inv_trigger hinv htime hfresh heq
  | runWarm htime hpend => exact inv_runWarm hinv htime hpend
  | sweep htime => exact inv_sweep hinv htime
  | claimSlot htime heq => exact inv_claim hinv htime heq
  | cancel => exact inv_cancel hinv

/-- The invariant holds in every reachable state. -/
lemma reachable_inv {st : SysState} (h : Reachable st) : Inv st := by
  induction h with
  | start => exact inv_initState
  | step _ hs ih => exact inv_step ih hs

lemma reachable_steps {st st' : SysState} (h : Reachable st) (hs : Steps st st') :
    Reachable st' := by
  induction hs with
  | refl => exact h
  | tail _ hstep ih => exact Reachable.step ih hstep

lemma update_status_self {s : WarmSlot} {x : WarmSlotStatus} (h : s.status = x) :
    ({ s with status := x } : WarmSlot) = s := by
  cases s
  cases h
  rfl

/-- The background warm task performs no release call on any path. -/
lemma warmContainer_log (i : Nat) (ok : Bool) (tok : String) (now : Nat)
    (store : List WarmSlot) : (warmContainer i ok tok now store).2 = [] := by
  cases ok with
  | false => cases h : findById store i <;> simp [warmContainer, h]
  | true =>
      cases h : findById store i with
      | none => simp [warmContainer, h]
      | some slot =>
          cases hb : slot.status == WarmSlotStatus.expired <;>
            simp [warmContainer, h, hb]

/-- Once a slot is claimed or expired, no single operation changes any of
its fields: the identical record is still in the store afterwards. -/
lemma terminal_persists {st : SysState} {e : Event} {st' : SysState}
    (hinv : Inv st) (hstep : Step st e st') {slot : WarmSlot}
    (hmem : slot ∈ st.store)
    (hterm : slot.status = WarmSlotStatus.claimed ∨
      slot.status = WarmSlotStatus.expired) :
    slot ∈ st'.store := by
  cases hstep with
  | trigger htime hfresh heq =>
      rename_i u t newId now r store'
      unfold triggerWarming at heq
      cases hq : scalarOneOrNone (findActive st.store u t) with
      | error e => rw [hq] at heq; cases heq
      | ok o =>
        rw [hq] at heq
        cases o with
        | some ex =>
            have hfa : findActive st.store u t = [ex] := scalarOneOrNone_ok_some hq
            have hex : ex ∈ st.store ∧ ex.user_id = u ∧ ex.template_id = t ∧
                ex.isActive = true := by
              have hm : ex ∈ findActive st.store u t := by
                rw [hfa]; exact List.mem_cons_self ex []
              exact mem_findActive.mp hm
            dsimp only at heq
            rw [Except.ok.injEq, Prod.mk.injEq] at heq
            obtain ⟨hr, hs⟩ := heq
            subst hs
            have hne : slot.id ≠ ex.id := by
              intro h
              have : slot = ex := mem_eq_of_id hinv.nodup hmem hex.1 h
              rw [this] at hterm
              have := isActive_false_of_terminal hterm
              rw [hex.2.2.2] at this
              cases this
            exact mem_updateSlot_of_ne hmem hne
        | none =>
            dsimp only at heq
            by_cases hcap : MAX_WARM_SLOTS_PER_USER ≤
                (st.store.filter (fun s => s.user_id == u && s.isActive)).length
            · rw [if_pos hcap] at heq
              rw [Except.ok.injEq, Prod.mk.injEq] at heq
              obtain ⟨hr, hs⟩ := heq
              subst hs
              exact hmem
            · rw [if_neg hcap] at heq
              rw [Except.ok.injEq, Prod.mk.injEq] at heq
              obtain ⟨hr, hs⟩ := heq
              subst hs
              exact List.mem_append_left _ hmem
  | runWarm htime hpend =>
      rename_i i ok tok now
      dsimp only
      cases ok with
      | true =>
          cases hf : findById st.store i with
          | none => rw [show (warmContainer i true tok now st.store).1 = st.store by
              simp [warmContainer, hf]]; exact hmem
          | some slotF =>
              obtain ⟨hmemF, hidF⟩ := findById_some hf
              cases hexp : slotF.status == WarmSlotStatus.expired with
              | true =>
                  rw [show (warmContainer i true tok now st.store).1 = st.store by
                    simp [warmContainer, hf, hexp]]
                  exact hmem
              | false =>
                  rw [show (warmContainer i true tok now st.store).1 =
                      updateSlot st.store i (fun s =>
                        { s with status := WarmSlotStatus.ready
                                 ready_at := some now
                                 host := some ("warm-" ++ tok)
                                 port := some 8080 }) by
                    simp [warmContainer, hf, hexp]]
                  have hne : slot.id ≠ i := by
                    intro h
                    have hsl : slot = slotF :=
                      mem_eq_of_id hinv.nodup hmem hmemF (h.trans hidF.symm)
                    rcases hterm with ht | ht <;> rw [hsl] at ht
                    · rcases hinv.pendingStatus slotF hmemF (hidF ▸ hpend) with
                        hp | hp <;> rw [ht] at hp <;> cases hp
                    · rw [ht] at hexp
                      simp at hexp
                  exact mem_updateSlot_of_ne hmem hne
      | false =>
          cases hf : findById st.store i with
          | none => rw [show (warmContainer i false tok now st.store).1 = st.store by
              simp [warmContainer, hf]]; exact hmem
          | some slotF =>
              rw [show (warmContainer i false tok now st.store).1 =
                  updateSlot st.store i (fun s =>
                    { s with status := WarmSlotStatus.expired }) by
                simp [warmContainer, hf]]
              obtain ⟨hmemF, hidF⟩ := findById_some hf
              by_cases hne : slot.id = i
              · have hsl : slot = slotF :=
                  mem_eq_of_id hinv.nodup hmem hmemF (hne.trans hidF.symm)
                have hse : slot.status = WarmSlotStatus.expired := by
                  rcases hterm with ht | ht
                  · exfalso
                    rcases hinv.pendingStatus slotF hmemF (hidF ▸ hpend) with
                      hp | hp <;> rw [← hsl, ht] at hp <;> cases hp
                  · exact ht
                have h2 := mem_updateSlot_of_eq (f := fun s =>
                  { s with status := WarmSlotStatus.expired }) hmem hne
                dsimp only at h2
                rwa [update_status_self hse] at h2
              · exact mem_updateSlot_of_ne hmem hne
  | sweep htime =>
      rename_i f now
      dsimp only
      have hg : (fun s => if sweepCandidate now s then
          { s with status := WarmSlotStatus.expired } else s) slot = slot := by
        have : sweepCandidate now slot = false := by
          simp [sweepCandidate, isActive_false_of_terminal hterm]
        simp [this]
      have := List.mem_map_of_mem (fun s => if sweepCandidate now s then
          { s with status := WarmSlotStatus.expired } else s) hmem
      rw [hg] at this
      exact this
  | claimSlot htime heq =>
      rename_i u t now res store'
      unfold claimWarmSlot at heq
      cases hq : scalarOneOrNone (findReady st.store u t now) with
      | error e => rw [hq] at heq; cases heq
      | ok o =>
        rw [hq] at heq
        cases o with
        | none =>
            dsimp only at heq
            rw [Except.ok.injEq, Prod.mk.injEq] at heq
            obtain ⟨hr, hs⟩ := heq
            subst hs
            exact hmem
        | some slotR =>
            have hfr : findReady st.store u t now = [slotR] := scalarOneOrNone_ok_some hq
            have hslot : slotR ∈ st.store ∧ slotR.user_id = u ∧ slotR.template_id = t ∧
                slotR.status = WarmSlotStatus.ready ∧ now < slotR.expires_at := by
              have hm : slotR ∈ findReady st.store u t now := by
                rw [hfr]; exact List.mem_cons_self slotR []
              exact mem_findReady.mp hm
            dsimp only at heq
            rw [Except.ok.injEq, Prod.mk.injEq] at heq
            obtain ⟨hr, hs⟩ := heq
            subst hs
            have hne : slot.id ≠ slotR.id := by
              intro h
              have hsl : slot = slotR := mem_eq_of_id hinv.nodup hmem hslot.1 h
              rcases hterm with ht | ht <;>
                rw [hsl, hslot.2.2.2.1] at ht <;> cases ht
            exact mem_updateSlot_of_ne hmem hne
  | cancel =>
      rename_i i u
      dsimp only
      unfold cancelWarmSlot
      cases hf : st.store.find? (fun s => s.id == i && s.user_id == u) with
      | none => exact hmem
      | some slotF =>
          have hmemF : slotF ∈ st.store := List.mem_of_find?_eq_some hf
          have hpred := List.find?_some hf
          have hidF : slotF.id = i := by
            have := (Bool.and_eq_true _ _).mp hpred
            simpa using this.1
          cases hterm2 : (slotF.status == WarmSlotStatus.claimed
              || slotF.status == WarmSlotStatus.expired) with
          | true =>
              dsimp only
              rw [if_pos hterm2]
              exact hmem
          | false =>
              dsimp only
              rw [if_neg (by simp [hterm2])]
              have hne : slot.id ≠ i := by
                intro h
                have hsl : slot = slotF :=
                  mem_eq_of_id hinv.nodup hmem hmemF (h.trans hidF.symm)
                rw [hsl] at hterm
                rcases hterm with ht | ht <;> rw [ht] at hterm2 <;> simp at hterm2
              exact mem_updateSlot_of_ne hmem hne

/-- A single operation only ever appends release calls for slots that were
active when the operation started: an already-expired slot's id never
appears among the new entries. -/
lemma step_new_releases {st : SysState} {e : Event} {st' : SysState}
    (hinv : Inv st) (hstep : Step st e st') {slot : WarmSlot}
    (hmem : slot ∈ st.store) (hexp : slot.status = WarmSlotStatus.expired) :
    ∃ newlog, st'.releaseLog = st.releaseLog ++ newlog ∧
      ∀ p ∈ newlog, p.1 ≠ slot.id := by
  cases hstep with
  | trigger htime hfresh heq =>
      exact ⟨[], (List.append_nil _).symm, by simp⟩
  | runWarm htime hpend =>
      rename_i i ok tok now
      refine ⟨(warmContainer i ok tok now st.store).2, rfl, ?_⟩
      rw [warmContainer_log]
      simp
  | sweep htime =>
      rename_i f now
      refine ⟨(cleanupExpiredSlots now f st.store).2, rfl, ?_⟩
      intro p hp
      have hp' : p ∈ (st.store.filter (sweepCandidate now)).flatMap
          (fun s => releaseWarmSlotResources s f) := hp
      obtain ⟨s, hs, hps⟩ := List.mem_flatMap.mp hp'
      have hsmem : s ∈ st.store := (List.mem_filter.mp hs).1
      have hscand : sweepCandidate now s = true := (List.mem_filter.mp hs).2
      have hp1 : p.1 = s.id := by
        unfold releaseWarmSlotResources at hps
        cases hi : s.provider_instance_id with
        | none => rw [hi] at hps; cases hps
        | some v =>
            rw [hi] at hps
            rcases List.mem_singleton.mp hps with rfl
            rfl
      rw [hp1]
      intro hids
      have hsl : s = slot := mem_eq_of_id hinv.nodup hsmem hmem hids
      rw [hsl] at hscand
      rw [sweepCandidate, isActive_false_of_terminal (Or.inr hexp)] at hscand
      cases hscand
  | claimSlot htime heq =>
      exact ⟨[], (List.append_nil _).symm, by simp⟩
  | cancel =>
      exact ⟨[], (List.append_nil _).symm, by simp⟩

/-- Along any further sequence of operations, an expired slot's record
survives untouched and no release call for its id is ever added. -/
lemma expired_stays_unreleased {st st' : SysState} (hreach : Reachable st)
    (hsteps : Steps st st') {slot : WarmSlot} (hmem : slot ∈ st.store)
    (hexp : slot.status = WarmSlotStatus.expired) :
    slot ∈ st'.store ∧
      st'.releaseLog.countP (fun p => p.1 == slot.id) =
        st.releaseLog.countP (fun p => p.1 == slot.id) := by
  induction hsteps with
  | refl => exact ⟨hmem, rfl⟩
  | tail hsub hstep ih =>
      obtain ⟨hmem1, hcount⟩ := ih
      rename_i stMid e stEnd
      have hinv1 : Inv stMid := reachable_inv (reachable_steps hreach hsub)
      refine ⟨terminal_persists hinv1 hstep hmem1 (Or.inr hexp), ?_⟩
      obtain ⟨newlog, hlog, hnone⟩ := step_new_releases hinv1 hstep hmem1 hexp
      rw [hlog, List.countP_append]
      have hz : newlog.countP (fun p => p.1 == slot.id) = 0 := by
        rw [List.countP_eq_zero]
        intro p hp
        simpa using hnone p hp
      rw [hz, Nat.add_zero, hcount]

lemma find?_eq_of_unique {l : List WarmSlot} {p : WarmSlot → Bool} {a : WarmSlot}
    (ha : a ∈ l) (hpa : p a = true)
    (huniq : ∀ b ∈ l, p b = true → b = a) : l.find? p = some a := by
  induction l with
  | nil => cases ha
  | cons x xs ih =>
      by_cases hx : p x = true
      · rw [List.find?_cons_of_pos xs hx, huniq x (List.mem_cons_self x xs) hx]
      · rw [List.find?_cons_of_neg xs (by simpa using hx)]
        have hax : a ∈ xs := by
          rcases List.mem_cons.mp ha with rfl | h
          · exact absurd hpa hx
          · exact h
        exact ih hax (fun b hb hpb => huniq b (List.mem_cons_of_mem x hb) hpb)

lemma scalarOneOrNone_error {l : List WarmSlot} {e : String}
    (h : scalarOneOrNone l = Except.error e) : ∃ a b rest, l = a :: b :: rest := by
  cases l with
  | nil => cases h
  | cons a l' =>
      cases l' with
      | nil => cases h
      | cons b rest => exact ⟨a, b, rest, rfl⟩

/-- On an invariant-satisfying store the active-slot query of
`trigger_warming` returns exactly the unique active row of the pair. -/
lemma findActive_eq_singleton {st : SysState} (hinv : Inv st) {slot : WarmSlot}
    {u : Nat} {t : String} (hmem : slot ∈ st.store) (hu : slot.user_id = u)
    (ht : slot.template_id = t) (hact : slot.isActive = true) :
    findActive st.store u t = [slot] := by
  apply filter_eq_singleton (storeNodup hinv)
  · exact hmem
  · simp [hu, ht, hact]
  · intro b hb hpb
    have hb' : b.user_id = u ∧ b.template_id = t ∧ b.isActive = true := by
      simpa [and_assoc] using hpb
    exact mem_eq_of_id hinv.nodup hb hmem
      (hinv.pairUnique b hb slot hmem hb'.2.2 hact (hb'.1.trans hu.symm)
        (hb'.2.1.trans ht.symm))

/-- When the pair already has an active slot, `trigger_warming` takes the
extension branch: it returns `extended` for that same slot and only
updates that slot's `expires_at`. -/
lemma trigger_extends {st : SysState} (hinv : Inv st) {slot : WarmSlot}
    {u newId now : Nat} {t : String} (hmem : slot ∈ st.store)
    (hu : slot.user_id = u) (ht : slot.template_id = t)
    (hact : slot.isActive = true) :
    triggerWarming u t newId now st.store = Except.ok
      (TriggerResult.extended slot.id slot.status (now + WARM_SLOT_TTL_SECONDS),
        updateSlot st.store slot.id
          (fun s => { s with expires_at := now + WARM_SLOT_TTL_SECONDS })) := by
  unfold triggerWarming
  rw [findActive_eq_singleton hinv hmem hu ht hact]
  rfl

lemma countP_releaseLog_zero {l : List WarmSlot} {f : Nat → Bool} {j : Nat}
    (h : ∀ s ∈ l, s.id ≠ j) :
    ((l.flatMap (fun s => releaseWarmSlotResources s f)).countP
      (fun p => p.1 == j)) = 0 := by
  induction l with
  | nil => rfl
  | cons x xs ih =>
      have hx : x.id ≠ j := h x (List.mem_cons_self x xs)
      have hxs := ih (fun s hs => h s (List.mem_cons_of_mem x hs))
      rw [List.flatMap_cons, List.countP_append, hxs, Nat.add_zero]
      rw [List.countP_eq_zero]
      intro p hp
      unfold releaseWarmSlotResources at hp
      cases hi : x.provider_instance_id with
      | none => rw [hi] at hp; cases hp
      | some v =>
          rw [hi] at hp
          rcases List.mem_singleton.mp hp with rfl
          simpa using hx

lemma countP_releaseLog {l : List WarmSlot} {f : Nat → Bool} {slot : WarmSlot}
    (hn : (l.map WarmSlot.id).Nodup) (hmem : slot ∈ l) :
    ((l.flatMap (fun s => releaseWarmSlotResources s f)).countP
      (fun p => p.1 == slot.id)) =
      if slot.provider_instance_id.isSome = true then 1 else 0 := by
  induction l with
  | nil => cases hmem
  | cons x xs ih =>
      rw [List.flatMap_cons, List.countP_append]
      rcases List.mem_cons.mp hmem with rfl | hmem'
      · have hz : ((xs.flatMap (fun s => releaseWarmSlotResources s f)).countP
            (fun p => p.1 == slot.id)) = 0 := by
          apply countP_releaseLog_zero
          intro s hs hsid
          have : slot.id ∈ xs.map WarmSlot.id := List.mem_map.mpr ⟨s, hs, hsid⟩
          rw [List.map_cons, List.nodup_cons] at hn
          exact hn.1 this
        rw [hz, Nat.add_zero]
        unfold releaseWarmSlotResources
        cases hi : slot.provider_instance_id with
        | none => simp [hi]
        | some v => simp [hi, List.countP_cons]
      · have hx : ((releaseWarmSlotResources x f).countP
            (fun p => p.1 == slot.id)) = 0 := by
          rw [List.countP_eq_zero]
          intro p hp
          unfold releaseWarmSlotResources at hp
          cases hi : x.provider_instance_id with
          | none => rw [hi] at hp; cases hp
          | some v =>
              rw [hi] at hp
              rcases List.mem_singleton.mp hp with rfl
              intro hb
              have hxid : x.id = slot.id := by simpa using hb
              have hmm : slot.id ∈ xs.map WarmSlot.id :=
                List.mem_map.mpr ⟨slot, hmem', rfl⟩
              rw [List.map_cons, List.nodup_cons] at hn
              exact hn.1 (hxid ▸ hmm)
        rw [hx, Nat.zero_add]
        have hn' : (xs.map WarmSlot.id).Nodup := by
          rw [List.map_cons, List.nodup_cons] at hn
          exact hn.2
        exact ih hn' hmem'

/-!
Concrete executions used to witness the theorems: a trigger at time 0
creates slot 1 for user 1 and template ollama; its warm task succeeds at
time 5; a sweep at time 200 finds it past its 180-second TTL.
-/

/-- State after `trigger_warming(user 1, "ollama")` at time 0. -/
def stA : SysState :=
  { store := [newWarmSlot 1 1 "ollama" 0], pending := [1], releaseLog := [], time := 0 }

/-- The slot of `stA` after its warm task succeeded at time 5. -/
def wSlotReady : WarmSlot :=
  { id := 1
    user_id := 1
    template_id := "ollama"
    provider := ComputeProvider.verda
    provider_instance_id := none
    status := WarmSlotStatus.ready
    host := some ("warm-" ++ "ab")
    port := some 8080
    created_at := 0
    ready_at := some 5
    expires_at := 180
    claimed_at := none }

/-- State after the warm task of slot 1 completed at time 5. -/
def stB : SysState :=
  { store := [wSlotReady], pending := [], releaseLog := [], time := 5 }

/-- The ready slot after the sweep at time 200 expired it. -/
def wSlotExpiredHost : WarmSlot := { wSlotReady with status := WarmSlotStatus.expired }

/-- State after the sweep pass at time 200. -/
def stC : SysState :=
  { store := [wSlotExpiredHost], pending := [], releaseLog := [], time := 200 }

lemma reach_stA : Reachable stA := by
  have h : Step initState (Event.trigger 1 "ollama" 1 0) stA := by
    have heq : triggerWarming 1 "ollama" 1 0 initState.store =
        Except.ok (TriggerResult.created 1 (0 + WARM_SLOT_TTL_SECONDS),
          [newWarmSlot 1 1 "ollama" 0]) := by rfl
    have hfresh : ∀ s ∈ initState.store, s.id ≠ 1 := by
      intro s hs
      simp [initState] at hs
    exact @Step.trigger initState 1 "ollama" 1 0
      (TriggerResult.created 1 (0 + WARM_SLOT_TTL_SECONDS))
      [newWarmSlot 1 1 "ollama" 0] (Nat.le_refl 0) hfresh heq
  exact Reachable.step Reachable.start h

lemma reach_stB : Reachable stB := by
  have h : Step stA (Event.runWarm 1 true "ab" 5) stB :=
    @Step.runWarm stA 1 true "ab" 5 (by decide) (by decide)
  exact Reachable.step reach_stA h

lemma reach_stC : Reachable stC := by
  have h : Step stB (Event.sweep (fun _ => true) 200) stC :=
    @Step.sweep stB (fun _ => true) 200 (by decide)
  exact Reachable.step reach_stB h

/-! Claim theorems. -/

/-- An expired slot holding a provider resource handle, as observed by a
warm task that lost the race. -/
def slotC1 : WarmSlot :=
  { id := 1
    user_id := 7
    template_id := "ollama"
    provider := ComputeProvider.verda
    provider_instance_id := some "inst-1"
    status := WarmSlotStatus.expired
    host := none
    port := none
    created_at := 0
    ready_at := none
    expires_at := 10
    claimed_at := none }

/-- Claim C1 is false on the code: when the warm task re-fetches its slot
and observes status `expired`, `_warm_container` simply returns
(warming.py:246-248) — it performs zero release calls, not exactly one,
even when a provider resource handle is present.  The store is left
unchanged, so the no-`ready`/no-`host`/`port` half does hold. -/
theorem C1_counterexample :
    slotC1.status = WarmSlotStatus.expired ∧
    slotC1.provider_instance_id.isSome = true ∧
    warmContainer 1 true "ab" 100 [slotC1] = ([slotC1], []) ∧
    (warmContainer 1 true "ab" 100 [slotC1]).2.length ≠ 1 :=
  ⟨rfl, rfl, rfl, by decide⟩

/-- Claim C1 (amended): a warm task whose slot has been swept to `expired`
before it finishes stops without setting the slot to `ready` and without
writing `host`/`port` (the store is returned unchanged), and performs zero
release calls — the simulated provisioning acquires no resource and the
expired branch of `_warm_container` contains no release call. -/
theorem C1_expired_slot_task_noop :
    ∀ (store : List WarmSlot) (i : Nat) (tok : String) (now : Nat)
      (slot : WarmSlot),
      findById store i = some slot → slot.status = WarmSlotStatus.expired →
      warmContainer i true tok now store = (store, []) := by
  intro store i tok now slot hf hs
  have hb : (slot.status == WarmSlotStatus.expired) = true := by simp [hs]
  simp [warmContainer, hf, hb]

/-- A second expired slot used to exercise `C1_expired_slot_task_noop`. -/
def slotC1w : WarmSlot :=
  { id := 2
    user_id := 9
    template_id := "jupyter"
    provider := ComputeProvider.verda
    provider_instance_id := some "inst-2"
    status := WarmSlotStatus.expired
    host := none
    port := none
    created_at := 3
    ready_at := none
    expires_at := 40
    claimed_at := none }

/-- Witness for `C1_expired_slot_task_noop` at a concrete input. -/
theorem C1_expired_slot_task_noop_witness :
    findById [slotC1w] 2 = some slotC1w ∧
    slotC1w.status = WarmSlotStatus.expired ∧
    warmContainer 2 true "cd" 77 [slotC1w] = ([slotC1w], []) :=
  ⟨rfl, rfl, C1_expired_slot_task_noop [slotC1w] 2 "cd" 77 slotC1w rfl rfl⟩

/-- Claim C2: in every reachable state every user has at most
`MAX_WARM_SLOTS_PER_USER` slots in {preparing, ready}; and a trigger that
finds no active slot for the pair while the user is at the cap returns the
`SlotLimitExceeded` result and leaves the store unchanged. -/
theorem C2_cap_invariant :
    (∀ st : SysState, Reachable st → ∀ u : Nat,
      (st.store.filter (fun s => s.user_id == u && s.isActive)).length ≤
        MAX_WARM_SLOTS_PER_USER) ∧
    (∀ (store : List WarmSlot) (u : Nat) (t : String) (newId now : Nat),
      findActive store u t = [] →
      MAX_WARM_SLOTS_PER_USER ≤
        (store.filter (fun s => s.user_id == u && s.isActive)).length →
      triggerWarming u t newId now store =
        Except.ok (TriggerResult.limitError MAX_WARM_SLOTS_PER_USER, store)) := by
  constructor
  · intro st h u
    exact (reachable_inv h).cap u
  · intro store u t newId now hfa hcap
    unfold triggerWarming
    rw [hfa]
    dsimp only [scalarOneOrNone]
    rw [if_pos hcap]

/-- First cap-witness slot: active slot of user 1 for template ollama. -/
def capSlotA : WarmSlot := newWarmSlot 1 1 "ollama" 0

/-- Second cap-witness slot: active slot of user 1 for template jupyter. -/
def capSlotB : WarmSlot := newWarmSlot 2 1 "jupyter" 0

/-- Witness for `C2_cap_invariant` at concrete inputs. -/
theorem C2_cap_invariant_witness :
    (stB.store.filter (fun s => s.user_id == 1 && s.isActive)).length ≤
      MAX_WARM_SLOTS_PER_USER ∧
    triggerWarming 1 "vscode" 3 10 [capSlotA, capSlotB] =
      Except.ok (TriggerResult.limitError MAX_WARM_SLOTS_PER_USER,
        [capSlotA, capSlotB]) :=
  ⟨C2_cap_invariant.1 stB reach_stB 1,
   C2_cap_invariant.2 [capSlotA, capSlotB] 1 "vscode" 3 10 (by decide) (by decide)⟩

/-- Claim C9: `cancel_warm_slot` checks ownership before any mutation:
an absent or non-owned slot yields not-found with the store unchanged; an
owned terminal slot yields the already-terminal failure with the store
unchanged; an owned active slot is transitioned to `expired` (keeping its
`host`/`port`) with every other slot untouched. -/
theorem C9_cancel_ownership :
    ∀ (store : List WarmSlot) (i u : Nat), (store.map WarmSlot.id).Nodup →
      ((∀ s ∈ store, s.id = i → s.user_id ≠ u) →
        cancelWarmSlot i u store = (CancelResult.notFound, store)) ∧
      (∀ s ∈ store, s.id = i → s.user_id = u →
        ((s.status = WarmSlotStatus.claimed ∨ s.status = WarmSlotStatus.expired) →
          cancelWarmSlot i u store = (CancelResult.alreadyTerminal, store)) ∧
        ((s.status = WarmSlotStatus.preparing ∨ s.status = WarmSlotStatus.ready) →
          (cancelWarmSlot i u store).1 = CancelResult.cancelled ∧
          (∃ s' ∈ (cancelWarmSlot i u store).2, s'.id = s.id ∧
            s'.status = WarmSlotStatus.expired ∧ s'.host = s.host ∧
            s'.port = s.port) ∧
          (∀ o ∈ store, o.id ≠ i → o ∈ (cancelWarmSlot i u store).2))) := by
  intro store i u hn
  constructor
  · intro hno
    unfold cancelWarmSlot
    have hfind : store.find? (fun s => s.id == i && s.user_id == u) = none := by
      rw [List.find?_eq_none]
      intro s hs hb
      obtain ⟨h1, h2⟩ := (Bool.and_eq_true _ _).mp hb
      exact hno s hs (by simpa using h1) (by simpa using h2)
    rw [hfind]
  · intro s hs hsi hsu
    have hfind : store.find? (fun x => x.id == i && x.user_id == u) = some s := by
      apply find?_eq_of_unique hs (by simp [hsi, hsu])
      intro b hb hpb
      obtain ⟨h1, _⟩ := (Bool.and_eq_true _ _).mp hpb
      have hbi : b.id = i := by simpa using h1
      exact mem_eq_of_id hn hb hs (hbi.trans hsi.symm)
    constructor
    · intro hterm
      unfold cancelWarmSlot
      rw [hfind]
      dsimp only
      rw [if_pos (by rcases hterm with h | h <;> simp [h])]
    · intro hact
      have hcc : cancelWarmSlot i u store = (CancelResult.cancelled,
          updateSlot store i (fun x => { x with status := WarmSlotStatus.expired })) := by
        unfold cancelWarmSlot
        rw [hfind]
        dsimp only
        rw [if_neg (by rcases hact with h | h <;> simp [h])]
      refine ⟨by rw [hcc], ?_, ?_⟩
      · rw [hcc]
        exact ⟨_, mem_updateSlot_of_eq hs hsi, rfl, rfl, rfl, rfl⟩
      · intro o ho hoi
        rw [hcc]
        exact mem_updateSlot_of_ne ho hoi

/-- Cancel-witness slot: a preparing slot owned by user 1. -/
def c9A : WarmSlot := newWarmSlot 1 1 "ollama" 0

/-- Cancel-witness slot: a claimed slot owned by user 1. -/
def c9B : WarmSlot :=
  { id := 2
    user_id := 1
    template_id := "jupyter"
    provider := ComputeProvider.verda
    provider_instance_id := none
    status := WarmSlotStatus.claimed
    host := some "h"
    port := some 80
    created_at := 0
    ready_at := some 1
    expires_at := 100
    claimed_at := some 2 }

/-- Witness for `C9_cancel_ownership` at concrete inputs: not-found,
already-terminal and successful-cancel branches. -/
theorem C9_cancel_ownership_witness :
    cancelWarmSlot 3 1 [c9A, c9B] = (CancelResult.notFound, [c9A, c9B]) ∧
    cancelWarmSlot 2 1 [c9A, c9B] = (CancelResult.alreadyTerminal, [c9A, c9B]) ∧
    (cancelWarmSlot 1 1 [c9A, c9B]).1 = CancelResult.cancelled :=
  ⟨(C9_cancel_ownership [c9A, c9B] 3 1 (by decide)).1 (by decide),
   ((C9_cancel_ownership [c9A, c9B] 2 1 (by decide)).2 c9B (by decide) rfl rfl).1
     (Or.inl rfl),
   (((C9_cancel_ownership [c9A, c9B] 1 1 (by decide)).2 c9A (by decide) rfl rfl).2
     (Or.inl rfl)).1⟩

/-- Claim C6: a single sweep pass marks every slot that is in
{preparing, ready} with `expires_at < now` as `expired`, logging exactly
one release attempt for each such slot whose `provider_instance_id` is set
and none for the others; the resulting store does not depend on which
release attempts fail, and slots the pass does not select are untouched
and never released. -/
theorem C6_sweep_pass :
    ∀ (now : Nat) (f g : Nat → Bool) (store : List WarmSlot),
      (store.map WarmSlot.id).Nodup →
      (cleanupExpiredSlots now f store).1 = (cleanupExpiredSlots now g store).1 ∧
      (∀ slot ∈ store, sweepCandidate now slot = true →
        (∃ slot' ∈ (cleanupExpiredSlots now f store).1,
          slot'.id = slot.id ∧ slot'.status = WarmSlotStatus.expired) ∧
        (cleanupExpiredSlots now f store).2.countP (fun p => p.1 == slot.id) =
          (if slot.provider_instance_id.isSome = true then 1 else 0)) ∧
      (∀ slot ∈ store, sweepCandidate now slot = false →
        slot ∈ (cleanupExpiredSlots now f store).1 ∧
        (cleanupExpiredSlots now f store).2.countP (fun p => p.1 == slot.id) = 0) := by
  intro now f g store hn
  refine ⟨rfl, ?_, ?_⟩
  · intro slot hmem hcand
    constructor
    · refine ⟨_, List.mem_map_of_mem _ hmem, ?_, ?_⟩
      · simp [hcand]
      · simp [hcand]
    · have hnf : ((store.filter (sweepCandidate now)).map WarmSlot.id).Nodup :=
        hn.sublist ((List.filter_sublist store).map WarmSlot.id)
      exact countP_releaseLog hnf (List.mem_filter.mpr ⟨hmem, hcand⟩)
  · intro slot hmem hcand
    constructor
    · have hg : (fun s => if sweepCandidate now s then
          { s with status := WarmSlotStatus.expired } else s) slot = slot := by
        simp [hcand]
      have := List.mem_map_of_mem (fun s => if sweepCandidate now s then
          { s with status := WarmSlotStatus.expired } else s) hmem
      rw [hg] at this
      exact this
    · apply countP_releaseLog_zero
      intro s hs hsid
      have hsmem : s ∈ store := (List.mem_filter.mp hs).1
      have hscand : sweepCandidate now s = true := (List.mem_filter.mp hs).2
      rw [mem_eq_of_id hn hsmem hmem hsid] at hscand
      rw [hcand] at hscand
      cases hscand

/-- Sweep-witness slot: ready, past its TTL, holding a resource handle. -/
def swA : WarmSlot :=
  { id := 1
    user_id := 1
    template_id := "ollama"
    provider := ComputeProvider.verda
    provider_instance_id := some "inst-a"
    status := WarmSlotStatus.ready
    host := some "h"
    port := some 80
    created_at := 0
    ready_at := some 1
    expires_at := 10
    claimed_at := none }

/-- Sweep-witness slot: preparing, past its TTL, no resource handle. -/
def swB : WarmSlot := newWarmSlot 2 1 "jupyter" 0

/-- Sweep-witness slot: ready, not yet expired. -/
def swC : WarmSlot :=
  { id := 3
    user_id := 2
    template_id := "ollama"
    provider := ComputeProvider.verda
    provider_instance_id := none
    status := WarmSlotStatus.ready
    host := some "h2"
    port := some 81
    created_at := 0
    ready_at := some 1
    expires_at := 500
    claimed_at := none }

/-- Witness for `C6_sweep_pass`: a pass at time 300 over two expired slots
(one holding a resource, one not, with the release failing) and one live
slot. -/
theorem C6_sweep_pass_witness :
    (cleanupExpiredSlots 300 (fun _ => false) [swA, swB, swC]).1 =
      (cleanupExpiredSlots 300 (fun _ => true) [swA, swB, swC]).1 ∧
    (∃ slot' ∈ (cleanupExpiredSlots 300 (fun _ => false) [swA, swB, swC]).1,
      slot'.id = swA.id ∧ slot'.status = WarmSlotStatus.expired) ∧
    (cleanupExpiredSlots 300 (fun _ => false) [swA, swB, swC]).2.countP
      (fun p => p.1 == swA.id) = 1 ∧
    (cleanupExpiredSlots 300 (fun _ => false) [swA, swB, swC]).2.countP
      (fun p => p.1 == swB.id) = 0 ∧
    swC ∈ (cleanupExpiredSlots 300 (fun _ => false) [swA, swB, swC]).1 := by
  have h := C6_sweep_pass 300 (fun _ => false) (fun _ => true) [swA, swB, swC]
    (by decide)
  refine ⟨h.1, (h.2.1 swA (by decide) (by decide)).1, ?_, ?_,
    (h.2.2 swC (by decide) (by decide)).1⟩
  · exact ((h.2.1 swA (by decide) (by decide)).2).trans (by decide)
  · exact ((h.2.1 swB (by decide) (by decide)).2).trans (by decide)

/-- Claim C3: once a slot is `claimed` or `expired`, no operation of the
subsystem changes its status or `host`/`port` — after any single step from
a reachable state the identical id/status/host/port are still in the
store — and cancelling such a slot returns the already-terminal failure
result (a value, not an exception) with the store unchanged. -/
theorem C3_terminal_frozen :
    ∀ (st : SysState) (e : Event) (st' : SysState), Reachable st →
      Step st e st' → ∀ slot ∈ st.store,
      (slot.status = WarmSlotStatus.claimed ∨
        slot.status = WarmSlotStatus.expired) →
      (∃ slot' ∈ st'.store, slot'.id = slot.id ∧ slot'.status = slot.status ∧
        slot'.host = slot.host ∧ slot'.port = slot.port) ∧
      cancelWarmSlot slot.id slot.user_id st.store =
        (CancelResult.alreadyTerminal, st.store) := by
  intro st e st' hreach hstep slot hmem hterm
  have hinv := reachable_inv hreach
  constructor
  · exact ⟨slot, terminal_persists hinv hstep hmem hterm, rfl, rfl, rfl, rfl⟩
  · unfold cancelWarmSlot
    have hfind : st.store.find?
        (fun s => s.id == slot.id && s.user_id == slot.user_id) = some slot := by
      apply find?_eq_of_unique hmem (by simp)
      intro b hb hpb
      obtain ⟨h1, _⟩ := (Bool.and_eq_true _ _).mp hpb
      exact mem_eq_of_id hinv.nodup hb hmem (by simpa using h1)
    rw [hfind]
    dsimp only
    rw [if_pos (by rcases hterm with h | h <;> simp [h])]

/-- Witness for `C3_terminal_frozen`: the expired slot of `stC` under a
cancel step (which leaves `stC` unchanged). -/
theorem C3_terminal_frozen_witness :
    (∃ slot' ∈ stC.store, slot'.id = wSlotExpiredHost.id ∧
      slot'.status = wSlotExpiredHost.status ∧
      slot'.host = wSlotExpiredHost.host ∧
      slot'.port = wSlotExpiredHost.port) ∧
    cancelWarmSlot wSlotExpiredHost.id wSlotExpiredHost.user_id stC.store =
      (CancelResult.alreadyTerminal, stC.store) :=
  C3_terminal_frozen stC (Event.cancel 1 1) stC reach_stC Step.cancel
    wSlotExpiredHost (by decide) (Or.inr rfl)

/-- Claim C4: re-triggering a pair that has an active slot sets that
slot's `expires_at` to `now + WARM_SLOT_TTL_SECONDS`, which (under the
non-decreasing clock of reachable states) is at least the old value, and
returns the `extended` result naming that same slot. -/
theorem C4_extend_monotonic :
    ∀ (st : SysState) (u newId now : Nat) (t : String) (slot : WarmSlot),
      Reachable st → slot ∈ st.store → slot.user_id = u →
      slot.template_id = t → slot.isActive = true → st.time ≤ now →
      triggerWarming u t newId now st.store = Except.ok
        (TriggerResult.extended slot.id slot.status
          (now + WARM_SLOT_TTL_SECONDS),
          updateSlot st.store slot.id
            (fun s => { s with expires_at := now + WARM_SLOT_TTL_SECONDS })) ∧
      slot.expires_at ≤ now + WARM_SLOT_TTL_SECONDS ∧
      (∃ slot' ∈ updateSlot st.store slot.id
          (fun s => { s with expires_at := now + WARM_SLOT_TTL_SECONDS }),
        slot'.id = slot.id ∧ slot'.expires_at = now + WARM_SLOT_TTL_SECONDS) := by
  intro st u newId now t slot hreach hmem hu ht hact htime
  have hinv := reachable_inv hreach
  refine ⟨trigger_extends hinv hmem hu ht hact, ?_, ?_⟩
  · have := hinv.ttl slot hmem hact
    omega
  · exact ⟨_, mem_updateSlot_of_eq hmem rfl, rfl, rfl⟩

/-- Witness for `C4_extend_monotonic`: re-triggering the ready slot of
`stB` at time 10. -/
theorem C4_extend_monotonic_witness :
    triggerWarming 1 "ollama" 9 10 stB.store = Except.ok
      (TriggerResult.extended wSlotReady.id wSlotReady.status
        (10 + WARM_SLOT_TTL_SECONDS),
        updateSlot stB.store wSlotReady.id
          (fun s => { s with expires_at := 10 + WARM_SLOT_TTL_SECONDS })) ∧
    wSlotReady.expires_at ≤ 10 + WARM_SLOT_TTL_SECONDS ∧
    (∃ slot' ∈ updateSlot stB.store wSlotReady.id
        (fun s => { s with expires_at := 10 + WARM_SLOT_TTL_SECONDS }),
      slot'.id = wSlotReady.id ∧
      slot'.expires_at = 10 + WARM_SLOT_TTL_SECONDS) :=
  C4_extend_monotonic stB 1 9 10 "ollama" wSlotReady reach_stB (by decide)
    rfl rfl (by decide) (by decide)

/-- Claim C7: in every reachable state at most one active slot exists per
(user, template) pair, and a trigger that finds an active slot for the
pair returns the `extended` result without inserting a row (the store
keeps its length). -/
theorem C7_one_active_per_pair :
    (∀ st : SysState, Reachable st → ∀ a ∈ st.store, ∀ b ∈ st.store,
      a.isActive = true → b.isActive = true → a.user_id = b.user_id →
      a.template_id = b.template_id → a = b) ∧
    (∀ (st : SysState) (u newId now : Nat) (t : String) (slot : WarmSlot),
      Reachable st → slot ∈ st.store → slot.user_id = u →
      slot.template_id = t → slot.isActive = true →
      ∃ store', triggerWarming u t newId now st.store = Except.ok
          (TriggerResult.extended slot.id slot.status
            (now + WARM_SLOT_TTL_SECONDS), store') ∧
        store'.length = st.store.length) := by
  constructor
  · intro st h a ha b hb haact hbact hu ht
    exact mem_eq_of_id (reachable_inv h).nodup ha hb
      ((reachable_inv h).pairUnique a ha b hb haact hbact hu ht)
  · intro st u newId now t slot hreach hmem hu ht hact
    exact ⟨_, trigger_extends (reachable_inv hreach) hmem hu ht hact,
      List.length_map _ _⟩

/-- Witness for `C7_one_active_per_pair` at `stB`. -/
theorem C7_one_active_per_pair_witness :
    wSlotReady = wSlotReady ∧
    (∃ store', triggerWarming 1 "ollama" 9 10 stB.store = Except.ok
        (TriggerResult.extended wSlotReady.id wSlotReady.status
          (10 + WARM_SLOT_TTL_SECONDS), store') ∧
      store'.length = stB.store.length) :=
  ⟨C7_one_active_per_pair.1 stB reach_stB wSlotReady (by decide) wSlotReady
      (by decide) (by decide) (by decide) rfl rfl,
   C7_one_active_per_pair.2 stB 1 9 10 "ollama" wSlotReady reach_stB
      (by decide) rfl rfl (by decide)⟩

/-- Claim C8 is false on the code: the sweep marks a ready slot `expired`
without clearing `host`/`port` (warming.py:91-96 sets only `status`), so
the reachable state `stC` holds a slot whose `host` and `port` are
non-null while its status is neither `ready` nor `claimed`, refuting the
claimed biconditional. -/
theorem C8_counterexample :
    Reachable stC ∧ wSlotExpiredHost ∈ stC.store ∧
    wSlotExpiredHost.host.isSome = true ∧
    wSlotExpiredHost.port.isSome = true ∧
    ¬(wSlotExpiredHost.status = WarmSlotStatus.ready ∨
      wSlotExpiredHost.status = WarmSlotStatus.claimed) :=
  ⟨reach_stC, by decide, rfl, rfl, by decide⟩

/-- Claim C8 (amended): in every reachable state, `host`/`port` are
non-null whenever the status is `ready` or `claimed`, and are null while
the status is `preparing`; an `expired` slot may retain non-null
`host`/`port`, because neither the sweep nor cancellation clears them, so
only this weakened form of the biconditional holds. -/
theorem C8_hostPort_invariant :
    ∀ st : SysState, Reachable st → ∀ s ∈ st.store,
      ((s.status = WarmSlotStatus.ready ∨ s.status = WarmSlotStatus.claimed) →
        s.host.isSome = true ∧ s.port.isSome = true) ∧
      (s.status = WarmSlotStatus.preparing → s.host = none ∧ s.port = none) := by
  intro st h s hs
  exact (reachable_inv h).hostPort s hs

/-- Witness for `C8_hostPort_invariant`: the ready slot of `stB`. -/
theorem C8_hostPort_invariant_witness :
    wSlotReady.host.isSome = true ∧ wSlotReady.port.isSome = true :=
  (C8_hostPort_invariant stB reach_stB wSlotReady (by decide)).1 (Or.inl rfl)

/-- Claim C5: `claim_warm_slot` returns `none` exactly when the pair has
no `ready` slot with `expires_at` strictly in the future; otherwise it
returns that slot marked `claimed` with `claimed_at = now`, leaving
`host`/`port` unchanged and performing no release (the claim step leaves
the release log untouched), and a second claim for the same pair on the
resulting store returns `none`. -/
theorem C5_claim_semantics :
    ∀ (st : SysState) (u now : Nat) (t : String), Reachable st →
      (∀ st', Step st (Event.claimSlot u t now) st' →
        st'.releaseLog = st.releaseLog) ∧
      ∃ res store', claimWarmSlot u t now st.store = Except.ok (res, store') ∧
        ((res = none ∧ store' = st.store ∧
          ∀ s ∈ st.store, ¬(s.user_id = u ∧ s.template_id = t ∧
            s.status = WarmSlotStatus.ready ∧ now < s.expires_at)) ∨
        (∃ slot, slot ∈ st.store ∧ slot.user_id = u ∧ slot.template_id = t ∧
          slot.status = WarmSlotStatus.ready ∧ now < slot.expires_at ∧
          res = some { slot with status := WarmSlotStatus.claimed,
                                 claimed_at := some now } ∧
          (∃ slot' ∈ store', slot'.id = slot.id ∧
            slot'.status = WarmSlotStatus.claimed ∧
            slot'.claimed_at = some now ∧
            slot'.host = slot.host ∧ slot'.port = slot.port) ∧
          claimWarmSlot u t now store' = Except.ok (none, store'))) := by
  intro st u now t hreach
  have hinv := reachable_inv hreach
  constructor
  · intro st' hstep
    cases hstep
    rfl
  · cases hq : scalarOneOrNone (findReady st.store u t now) with
    | error e =>
        exfalso
        obtain ⟨a, b, rest, hl⟩ := scalarOneOrNone_error hq
        have ha : a ∈ findReady st.store u t now := by
          rw [hl]; exact List.mem_cons_self a (b :: rest)
        have hb : b ∈ findReady st.store u t now := by
          rw [hl]; exact List.mem_cons_of_mem a (List.mem_cons_self b rest)
        obtain ⟨ham, hau, hat, har, hae⟩ := mem_findReady.mp ha
        obtain ⟨hbm, hbu, hbt, hbr, hbe⟩ := mem_findReady.mp hb
        have hab : a = b := mem_eq_of_id hinv.nodup ham hbm
          (hinv.pairUnique a ham b hbm (by simp [WarmSlot.isActive, har])
            (by simp [WarmSlot.isActive, hbr]) (hau.trans hbu.symm)
            (hat.trans hbt.symm))
        have hnd : (findReady st.store u t now).Nodup :=
          (storeNodup hinv).filter _
        rw [hl, List.nodup_cons] at hnd
        rw [hab] at hnd
        exact hnd.1 (List.mem_cons_self b rest)
    | ok o =>
      cases o with
      | none =>
          have hfr : findReady st.store u t now = [] := scalarOneOrNone_ok_none hq
          refine ⟨none, st.store, ?_, Or.inl ⟨rfl, rfl, ?_⟩⟩
          · unfold claimWarmSlot
            rw [hq]
          · intro s hs hcon
            obtain ⟨h1, h2, h3, h4⟩ := hcon
            have hsm : s ∈ findReady st.store u t now :=
              mem_findReady.mpr ⟨hs, h1, h2, h3, h4⟩
            rw [hfr] at hsm
            cases hsm
      | some slot =>
          have hfr : findReady st.store u t now = [slot] :=
            scalarOneOrNone_ok_some hq
          have hm : slot ∈ findReady st.store u t now := by
            rw [hfr]; exact List.mem_cons_self slot []
          obtain ⟨hmem, hu, ht, hready, hlt⟩ := mem_findReady.mp hm
          refine ⟨some { slot with
                          status := WarmSlotStatus.claimed,
                          claimed_at := some now },
            updateSlot st.store slot.id (fun s =>
              { s with status := WarmSlotStatus.claimed,
                       claimed_at := some now }), ?_,
            Or.inr ⟨slot, hmem, hu, ht, hready, hlt, rfl, ?_, ?_⟩⟩
          · unfold claimWarmSlot
            rw [hq]
          · exact ⟨_, mem_updateSlot_of_eq hmem rfl, rfl, rfl, rfl, rfl, rfl⟩
          · have hempty : findReady (updateSlot st.store slot.id (fun s =>
                { s with status := WarmSlotStatus.claimed,
                         claimed_at := some now })) u t now = [] := by
              unfold findReady
              rw [List.filter_eq_nil_iff]
              intro s' hs' hp
              have hp' : s'.user_id = u ∧ s'.template_id = t ∧
                  s'.status = WarmSlotStatus.ready ∧ now < s'.expires_at := by
                simpa [and_assoc] using hp
              rcases updateSlot_cases hs' with ⟨s, hs, hsid, rfl⟩ | ⟨hs, hne⟩
              · cases hp'.2.2.1
              · have hact' : s'.isActive = true := by
                  simp [WarmSlot.isActive, hp'.2.2.1]
                have hsid : s'.id = slot.id := hinv.pairUnique s' hs slot hmem
                  hact' (by simp [WarmSlot.isActive, hready])
                  (hp'.1.trans hu.symm) (hp'.2.1.trans ht.symm)
                exact hne hsid
            unfold claimWarmSlot
            rw [hempty]
            rfl

/-- Witness for `C5_claim_semantics`: claiming the ready slot of `stB` at
time 20. -/
theorem C5_claim_semantics_witness :
    (∀ st', Step stB (Event.claimSlot 1 "ollama" 20) st' →
      st'.releaseLog = stB.releaseLog) ∧
    ∃ res store', claimWarmSlot 1 "ollama" 20 stB.store =
        Except.ok (res, store') ∧
      ((res = none ∧ store' = stB.store ∧
        ∀ s ∈ stB.store, ¬(s.user_id = 1 ∧ s.template_id = "ollama" ∧
          s.status = WarmSlotStatus.ready ∧ 20 < s.expires_at)) ∨
      (∃ slot, slot ∈ stB.store ∧ slot.user_id = 1 ∧
        slot.template_id = "ollama" ∧
        slot.status = WarmSlotStatus.ready ∧ 20 < slot.expires_at ∧
        res = some { slot with status := WarmSlotStatus.claimed,
                               claimed_at := some 20 } ∧
        (∃ slot' ∈ store', slot'.id = slot.id ∧
          slot'.status = WarmSlotStatus.claimed ∧
          slot'.claimed_at = some 20 ∧
          slot'.host = slot.host ∧ slot'.port = slot.port) ∧
        claimWarmSlot 1 "ollama" 20 store' = Except.ok (none, store'))) :=
  C5_claim_semantics stB 1 20 "ollama" reach_stB

/-- Claim C10: when `cancel_warm_slot` successfully transitions a slot to
`expired`, the cancellation itself performs no release (the release log is
unchanged by the cancel step), and no later sequence of operations ever
adds a release call for that slot's id: the sweep only selects slots still
in {preparing, ready}, so a cancelled slot is never visited again. -/
theorem C10_cancelled_never_released :
    ∀ (st : SysState) (i u : Nat) (st' : SysState), Reachable st →
      Step st (Event.cancel i u) st' →
      (cancelWarmSlot i u st.store).1 = CancelResult.cancelled →
      st'.releaseLog = st.releaseLog ∧
      ∀ st'' : SysState, Steps st' st'' →
        st''.releaseLog.countP (fun p => p.1 == i) =
          st'.releaseLog.countP (fun p => p.1 == i) := by
  intro st i u st' hreach hstep hcc
  cases hstep with
  | cancel =>
    refine ⟨rfl, ?_⟩
    intro st'' hsteps
    cases hf : st.store.find? (fun s => s.id == i && s.user_id == u) with
    | none =>
        exfalso
        unfold cancelWarmSlot at hcc
        rw [hf] at hcc
        cases hcc
    | some slotF =>
        have hmemF : slotF ∈ st.store := List.mem_of_find?_eq_some hf
        have hpred := List.find?_some hf
        have hidF : slotF.id = i := by
          have hp := (Bool.and_eq_true _ _).mp hpred
          simpa using hp.1
        by_cases hterm : (slotF.status == WarmSlotStatus.claimed
            || slotF.status == WarmSlotStatus.expired) = true
        · exfalso
          unfold cancelWarmSlot at hcc
          rw [hf] at hcc
          dsimp only at hcc
          rw [if_pos hterm] at hcc
          cases hcc
        · have hst2 : (cancelWarmSlot i u st.store).2 =
              updateSlot st.store i (fun x =>
                { x with status := WarmSlotStatus.expired }) := by
            unfold cancelWarmSlot
            rw [hf]
            dsimp only
            rw [if_neg hterm]
          have hreachN : Reachable
              { store := (cancelWarmSlot i u st.store).2,
                pending := st.pending, releaseLog := st.releaseLog,
                time := st.time } :=
            Reachable.step hreach Step.cancel
          have hmemN : ({ slotF with status := WarmSlotStatus.expired } : WarmSlot) ∈
              ({ store := (cancelWarmSlot i u st.store).2,
                 pending := st.pending, releaseLog := st.releaseLog,
                 time := st.time } : SysState).store := by
            dsimp only
            rw [hst2]
            exact mem_updateSlot_of_eq hmemF hidF
          have h := expired_stays_unreleased hreachN hsteps hmemN rfl
          have hid2 : ({ slotF with status := WarmSlotStatus.expired } :
              WarmSlot).id = i := hidF
          rw [hid2] at h
          exact h.2

/-- The slot of `stA` after its owner cancelled it at time 0. -/
def cSlotE : WarmSlot :=
  { id := 1
    user_id := 1
    template_id := "ollama"
    provider := ComputeProvider.verda
    provider_instance_id := none
    status := WarmSlotStatus.expired
    host := none
    port := none
    created_at := 0
    ready_at := none
    expires_at := 180
    claimed_at := none }

/-- State after the owner cancelled slot 1 of `stA`. -/
def stE : SysState :=
  { store := [cSlotE], pending := [1], releaseLog := [], time := 0 }

/-- State after a further sweep pass at time 300 over `stE`. -/
def stF : SysState :=
  { store := [cSlotE], pending := [1], releaseLog := [], time := 300 }

/-- Witness for `C10_cancelled_never_released`: cancelling the preparing
slot of `stA` and then running a sweep adds no release call for it. -/
theorem C10_cancelled_never_released_witness :
    stE.releaseLog = stA.releaseLog ∧
    stF.releaseLog.countP (fun p => p.1 == 1) =
      stE.releaseLog.countP (fun p => p.1 == 1) := by
  have h := C10_cancelled_never_released stA 1 1 stE reach_stA Step.cancel
    (by decide)
  exact ⟨h.1, h.2 stF (Steps.tail (Steps.refl stE)
    (@Step.sweep stE (fun _ => true) 300 (by decide)))⟩

end Warming
